import Mathlib

/-!
A shallow embedding of the neodrag drag-interaction engine.

Two engines are embedded from the source:

* `Single` — the single-instance engine: the `draggable(node, options)` action
  with its window-level `pointerdown` / `pointermove` / `pointerup` listeners,
  its plugin registration (`plugin_map`, `ordered_plugins`), its effect queue
  (`flush_effects` / `clear_effects`), and `try_start_drag`.
* `Delegated` — the delegated multi-instance engine: `createDraggable`'s
  `run_plugins`, `handle_pointer_move`, `handle_pointer_up`,
  `cleanup_active_node`, `initialize_plugins` (named `init_plugins` here),
  with `resultify`-style exception capture and the error-report log.

Modelling conventions:

* Machine numbers: pointer coordinates and offsets are `Int` (the engine's
  arithmetic on them is addition/subtraction only); `Math.ceil` of a quotient
  is `Int.ceil` over `ℚ`.
* DOM objects (nodes, rects, pointer capture, CSS writes) are abstracted away;
  the boolean `target_inside` on an event stands for
  `ctx.currentlyDraggedNode.contains(e.target)`, and the zero-argument
  side-effect closures handed to `ctx.effect` are identified by numeric ids.
  A lone `ran_effects` log records which effects were executed, `hook_trace`
  records each hook invocation `(plugin name, plugin priority, phase)`, and
  `events` records the external notifications with their payloads; these logs
  observe calls the real code makes and are touched nowhere else.
* A plugin hook is a pure function from the context view (and the pointer
  event) to a `HookOutcome`: its returned value (`retFalse` iff the handler
  returned `false`) together with the mutations it performed through the
  `PluginContext` API (`propose`, `effect`, `cancel`, `preventStart`).
  Delegated-engine hooks may also throw, returned as `Except.error`.
* JS `Set` insertion (`set_add`) keeps first-insertion order and deduplicates;
  JS `Map.set` (`js_map_set`) replaces in place, keeping the key's original
  position; `Array.prototype.sort` is stable (ES2019), modelled by the stable
  insertion sort `stable_sort`.
* `calculate_inverse_scale` reads DOM geometry (`offsetWidth / rect.width`,
  a float); it is abstracted as an integer parameter `inv_scale` of
  `pointerdown`, with the division modelled by `Int.ediv`.  No claim below
  depends on its value.
-/

namespace Neodrag

/-- The plugin lifecycle phases dispatched by both engines. -/
inductive Phase where
  | setup
  | shouldDrag
  | dragStart
  | drag
  | dragEnd
  deriving DecidableEq, Repr

/-- A pointer event, restricted to the fields the engine reads.
`target_inside` models `ctx.currentlyDraggedNode.contains(e.target)`;
`time` models `Date.now()` at the moment the event is handled. -/
structure PEvent where
  clientX : Int
  clientY : Int
  time : Int := 0
  button : Nat := 0
  pointerId : Int := 0
  target_inside : Bool := true
  deriving DecidableEq, Repr

/-- JS truthiness of a `number | null` value: `null`, `0` are falsy. -/
def js_truthy : Option Int → Bool
  | some v => v != 0
  | none => false

/-- JS `Set.add`: keep first-insertion order, ignore duplicates. -/
def set_add (l : List Nat) (e : Nat) : List Nat :=
  if e ∈ l then l else l ++ [e]

/-- JS `Map.set` keyed by `key`: replace in place if the key exists
(keeping the key's original insertion position), else append. -/
def js_map_set (key : α → String) : List α → α → List α
  | [], p => [p]
  | q :: qs, p => if key q == key p then p :: qs else q :: js_map_set key qs p

/-- One step of the duplicate-resolving registration loop shared by
`draggable` and `createDraggable`: keep the existing plugin of the same name
unless the incoming priority beats it under `gt` (strict `>` in the
single-instance engine, `≥` in the delegated engine). -/
def register_plugin (key : α → String) (prio : α → Int) (gt : Int → Int → Bool)
    (m : List α) (p : α) : List α :=
  match m.find? (fun q => key q == key p) with
  | none => m ++ [p]
  | some existing => if gt (prio p) (prio existing) then js_map_set key m p else m

/-- Stable insertion into a list sorted by the strict order `lt`:
the new element goes in front of the first element not strictly below it,
so earlier elements win ties.  Models ES2019 `Array.prototype.sort`
stability together with `stable_sort`. -/
def insert_stable (lt : α → α → Bool) (a : α) : List α → List α
  | [] => [a]
  | b :: bs => if lt b a then b :: insert_stable lt a bs else a :: b :: bs

/-- Stable sort by the strict order `lt` (ties keep original order). -/
def stable_sort (lt : α → α → Bool) (l : List α) : List α :=
  l.foldr (insert_stable lt) []

/-- The observable result of one plugin-hook invocation: the handler's
return value and the mutations it performed through the context API.
`effectCalls` lists the ids of the closures passed to `ctx.effect`. -/
structure HookOutcome where
  retFalse : Bool := false
  cancelCalled : Bool := false
  preventStartCalled : Bool := false
  proposeCall : Option (Option Int × Option Int) := none
  effectCalls : List Nat := []
  deriving DecidableEq, Repr

namespace Single

/-- The context view a single-instance plugin hook can read
(the getters of the `PluginContext` object in `draggable`). -/
structure SCtx where
  proposed : Option Int × Option Int
  delta : Int × Int
  offset : Int × Int
  isDragging : Bool
  isInteracting : Bool
  deriving DecidableEq, Repr

/-- A single-instance plugin hook: `handler(ctx, state, event)`.
Private plugin state is pure configuration here, closed over by the hook. -/
def SHook := SCtx → PEvent → HookOutcome

/-- A plugin record for the single-instance engine (`Plugin` in the source);
absent optional hooks are `none`, absent `priority` is `0`. -/
structure SPlugin where
  name : String
  priority : Int := 0
  setup : Option (SCtx → HookOutcome) := none
  shouldDrag : Option SHook := none
  dragStart : Option SHook := none
  drag : Option SHook := none
  dragEnd : Option SHook := none

/-- Select `plugin[hook]` for the pointer-driven phases. -/
def SPlugin.hookOf (p : SPlugin) : Phase → Option SHook
  | .setup => none
  | .shouldDrag => p.shouldDrag
  | .dragStart => p.dragStart
  | .drag => p.drag
  | .dragEnd => p.dragEnd

/-- The `threshold` option of `draggable` (defaults `{delay: 0, distance: 3}`). -/
structure Threshold where
  delay : Int := 0
  distance : Int := 3
  deriving DecidableEq, Repr

/-- The mutable state owned by one `draggable(node, options)` call, plus the
observation logs (`ran_effects`, `hook_trace`, `events`). -/
structure SState where
  is_interacting : Bool := false
  is_dragging : Bool := false
  start_time : Int := 0
  meets_time_threshold : Bool := false
  meets_distance_threshold : Bool := false
  x_offset : Int := 0
  y_offset : Int := 0
  initial_x : Int := 0
  initial_y : Int := 0
  proposals : Option Int × Option Int := (some 0, some 0)
  current_drag_hook_cancelled : Bool := false
  delta : Int × Int := (0, 0)
  effects_to_run : List Nat := []
  ran_effects : List Nat := []
  hook_trace : List (String × Int × Phase) := []
  events : List (String × Int × Int) := []
  deriving DecidableEq, Repr

/-- The context view exposed to hooks, read from the engine state. -/
def s_ctx (s : SState) : SCtx :=
  ⟨s.proposals, s.delta, (s.x_offset, s.y_offset), s.is_dragging, s.is_interacting⟩

/-- Apply one hook's context mutations to the engine state:
`propose` overwrites `proposals`, `effect` adds to the `Set` of queued
effects, `cancel` raises `current_drag_hook_cancelled`.  (The single-instance
context has no `preventStart`.) -/
def s_apply (s : SState) (o : HookOutcome) : SState :=
  { s with
    proposals := o.proposeCall.getD s.proposals,
    effects_to_run := o.effectCalls.foldl set_add s.effects_to_run,
    current_drag_hook_cancelled := s.current_drag_hook_cancelled || o.cancelCalled }

/-- `run_plugins(hook, event)` of the single-instance engine: invoke each
present handler of `ordered_plugins` in order; a handler returning `false`
stops with `should_run = false`; a cancellation stops likewise and resets the
cancellation flag. -/
def run_plugins : List SPlugin → Phase → SState → PEvent → Bool × SState
  | [], _, s, _ => (true, s)
  | p :: rest, hook, s, e =>
    match p.hookOf hook with
    | none => run_plugins rest hook s e
    | some h =>
      let o := h (s_ctx s) e
      let s1 := s_apply { s with hook_trace := s.hook_trace ++ [(p.name, p.priority, hook)] } o
      if o.retFalse then (false, s1)
      else if s1.current_drag_hook_cancelled then
        (false, { s1 with current_drag_hook_cancelled := false })
      else run_plugins rest hook s1 e

/-- Execute every queued effect, then clear the queue. -/
def flush_effects (s : SState) : SState :=
  { s with ran_effects := s.ran_effects ++ s.effects_to_run, effects_to_run := [] }

/-- Clear the queue without executing anything. -/
def clear_effects (s : SState) : SState :=
  { s with effects_to_run := [] }

/-- `reset_state()`: drop the dragging flag and thresholds, clear effects. -/
def reset_state (s : SState) : SState :=
  clear_effects
    { s with is_dragging := false, meets_time_threshold := false,
             meets_distance_threshold := false }

/-- Dispatch of one external notification (`CustomEvent` plus callback),
recorded with its payload. -/
def fire_event (name : String) (transform_x transform_y : Int) (s : SState) : SState :=
  { s with events := s.events ++ [(name, transform_x, transform_y)] }

/-- `try_start_drag(e)`: once all threshold conditions hold, run the
`dragStart` chain; on veto clear effects, otherwise flush them, set
`is_dragging` and fire the drag-start notification with `(initial_x, initial_y)`. -/
def try_start_drag (plugins : List SPlugin) (e : PEvent) (s : SState) : SState :=
  if s.is_interacting && !s.is_dragging &&
     s.meets_distance_threshold && s.meets_time_threshold then
    let s1 := { s with delta := (0, 0) }
    let r := run_plugins plugins .dragStart s1 e
    if !r.1 then clear_effects r.2
    else
      let s3 := { flush_effects r.2 with is_dragging := true }
      fire_event "neodrag_start" s3.initial_x s3.initial_y s3
  else s

/-- The `pointerdown` listener.  `inv_scale` abstracts
`calculate_inverse_scale()` (DOM float geometry); the division
`x_offset / inverse_scale` is modelled by `Int.ediv`. -/
def pointerdown (plugins : List SPlugin) (th : Threshold) (inv_scale : Int)
    (e : PEvent) (s : SState) : SState :=
  if e.button == 2 then s else
  let r := run_plugins plugins .shouldDrag s e
  if !r.1 then r.2 else
  if !e.target_inside then r.2 else
  let s2 := { r.2 with is_interacting := true, start_time := e.time }
  let s3 := if th.delay == 0 then { s2 with meets_time_threshold := true } else s2
  let s4 := if s3.proposals.1.isSome
            then { s3 with initial_x := e.clientX - Int.ediv s3.x_offset inv_scale } else s3
  if s4.proposals.2.isSome
  then { s4 with initial_y := e.clientY - Int.ediv s4.y_offset inv_scale } else s4

/-- The time-threshold check of the `pointermove` listener: once the elapsed
time reaches `threshold.delay`, mark the threshold met and `try_start_drag`. -/
def move_time_part (plugins : List SPlugin) (th : Threshold) (e : PEvent) (s : SState) : SState :=
  if !s.meets_time_threshold then
    if e.time - s.start_time ≥ th.delay then
      try_start_drag plugins e { s with meets_time_threshold := true }
    else s
  else s

/-- The distance-threshold check of the `pointermove` listener: once the
squared distance from the anchor reaches `threshold.distance ** 2`, mark the
threshold met and `try_start_drag`. -/
def move_dist_part (plugins : List SPlugin) (th : Threshold) (e : PEvent) (sa : SState) : SState :=
  if !sa.meets_distance_threshold then
    if (e.clientX - sa.initial_x) ^ 2 + (e.clientY - sa.initial_y) ^ 2 ≥ th.distance ^ 2 then
      try_start_drag plugins e { sa with meets_distance_threshold := true }
    else sa
  else sa

/-- The threshold-bookkeeping part of the `pointermove` listener (the body of
its `if (!is_dragging)` block): time threshold first, then distance
threshold, each calling `try_start_drag` once newly met. -/
def move_thresholds (plugins : List SPlugin) (th : Threshold) (e : PEvent) (s : SState) : SState :=
  move_dist_part plugins th e (move_time_part plugins th e s)

/-- The raw per-move delta of the `pointermove` listener: pointer position
minus anchor minus already-committed offset, per axis
(`e.clientX - initial_x - x_offset`, `e.clientY - initial_y - y_offset`). -/
def raw_delta (e : PEvent) (s : SState) : Int × Int :=
  (e.clientX - s.initial_x - s.x_offset, e.clientY - s.initial_y - s.y_offset)

/-- One committed move's `drag` chain: the raw delta is written into
`delta` and into `proposals`, then `run_plugins('drag')` runs. -/
def move_chain (plugins : List SPlugin) (e : PEvent) (s : SState) : Bool × SState :=
  run_plugins plugins .drag
    { s with delta := raw_delta e s,
             proposals := (some (raw_delta e s).1, some (raw_delta e s).2) } e

/-- The committed-move part of the `pointermove` listener (everything after
the `if (!is_dragging) return`): run the move's `drag` chain (`move_chain`),
flush or clear, fire the drag notification with the committed offset and
commit `offset += proposed ?? 0`. -/
def move_commit (plugins : List SPlugin) (e : PEvent) (s1 : SState) : SState :=
  if !s1.is_dragging then s1 else
  let r := move_chain plugins e s1
  if r.1 then
    let s4 := flush_effects r.2
    let final_x := s4.x_offset + s4.proposals.1.getD 0
    let final_y := s4.y_offset + s4.proposals.2.getD 0
    let s5 := fire_event "neodrag" final_x final_y s4
    { s5 with x_offset := final_x, y_offset := final_y }
  else clear_effects r.2

/-- The `pointermove` listener: threshold bookkeeping and `try_start_drag`
while not dragging; once dragging, `move_commit` commits the move. -/
def pointermove (plugins : List SPlugin) (th : Threshold) (e : PEvent) (s : SState) : SState :=
  if !s.is_interacting then s else
  move_commit plugins e
    (if !s.is_dragging then move_thresholds plugins th e s else s)

/-- The `pointerup` listener: run the `dragEnd` chain (result discarded),
re-anchor `initial` on truthy proposals, zero the proposals, fire the
drag-end notification with `(initial_x, initial_y)`, drop `is_interacting`
and reset state. -/
def pointerup (plugins : List SPlugin) (e : PEvent) (s : SState) : SState :=
  if !s.is_interacting then s else
  let r := run_plugins plugins .dragEnd s e
  let s2 := if js_truthy r.2.proposals.1 then { r.2 with initial_x := r.2.x_offset } else r.2
  let s3 := if js_truthy s2.proposals.2 then { s2 with initial_y := s2.y_offset } else s2
  let s4 := { s3 with proposals := (some 0, some 0) }
  let s5 := fire_event "neodrag_end" s4.initial_x s4.initial_y s4
  reset_state { s5 with is_interacting := false }

/-- The duplicate-resolving map built in `draggable`
(replacement only on strictly higher priority). -/
def plugin_map (all : List SPlugin) : List SPlugin :=
  all.foldl (register_plugin SPlugin.name SPlugin.priority (fun a b => b < a)) []

/-- `ordered_plugins` of `draggable`: the deduplicated plugins sorted by
`(a.priority ?? 0) - (b.priority ?? 0)`, i.e. ascending priority, stably. -/
def ordered_plugins (all : List SPlugin) : List SPlugin :=
  stable_sort (fun a b => a.priority < b.priority) (plugin_map all)

/-- The setup loop of `draggable`: it iterates
`default_plugins.concat(user_plugins)` — the raw concatenation, not the
deduplicated `ordered_plugins` — invoking `plugin.setup?.(ctx)` for each. -/
def attach_setup (all : List SPlugin) (s : SState) : SState :=
  all.foldl
    (fun st p =>
      match p.setup with
      | none => st
      | some h =>
        s_apply { st with hook_trace := st.hook_trace ++ [(p.name, p.priority, Phase.setup)] }
          (h (s_ctx st)))
    s

end Single

namespace Delegated

/-- The context view a delegated-engine plugin hook can read
(`instance.ctx` fields of `DraggableInstance`). -/
structure DCtx where
  proposed : Option Int × Option Int
  delta : Int × Int
  offset : Int × Int
  initial : Int × Int
  isDragging : Bool
  isInteracting : Bool
  deriving DecidableEq, Repr

/-- A delegated-engine hook; `Except.error n` models the handler throwing
the (abstracted) exception value `n`. -/
def DHook := DCtx → PEvent → Except Nat HookOutcome

/-- A plugin record for the delegated engine.  `cancelable = true` models
`plugin.cancelable !== false` (the skip-exempt value is literal `false`). -/
structure DPlugin where
  name : String
  priority : Int := 0
  cancelable : Bool := true
  liveUpdate : Bool := false
  setup : Option (DCtx → Except Nat HookOutcome) := none
  shouldDrag : Option DHook := none
  dragStart : Option DHook := none
  drag : Option DHook := none
  dragEnd : Option DHook := none

/-- Select `plugin[hook]`. -/
def DPlugin.hookOf (p : DPlugin) : Phase → Option DHook
  | .setup => none
  | .shouldDrag => p.shouldDrag
  | .dragStart => p.dragStart
  | .drag => p.drag
  | .dragEnd => p.dragEnd

/-- One entry of the error-report log: the `ErrorInfo` handed to `onError`
by `report_error` (the node field is the single managed node, omitted). -/
structure DErrorInfo where
  phase : Phase
  plugin : Option (String × Phase)
  err : Nat
  deriving DecidableEq, Repr

/-- One `DraggableInstance` of `createDraggable`, plus the manager-level
fact that this instance is the current `active_node` (`active`), plus the
observation logs. -/
structure DState where
  active : Bool := false
  proposed : Option Int × Option Int := (some 0, some 0)
  delta : Int × Int := (0, 0)
  offset : Int × Int := (0, 0)
  initial : Int × Int := (0, 0)
  isDragging : Bool := false
  isInteracting : Bool := false
  dragstart_prevented : Bool := false
  current_drag_hook_cancelled : Bool := false
  pointer_captured_id : Option Int := none
  lastEvent : Option PEvent := none
  effects : List Nat := []
  ran_effects : List Nat := []
  hook_trace : List (String × Int × Phase) := []
  errors : List DErrorInfo := []
  deriving DecidableEq, Repr

/-- The context view exposed to delegated hooks. -/
def d_ctx (s : DState) : DCtx :=
  ⟨s.proposed, s.delta, s.offset, s.initial, s.isDragging, s.isInteracting⟩

/-- Apply one hook's context mutations: `propose` overwrites `proposed`,
`effect` adds to the instance's effect `Set`, `cancel` raises
`current_drag_hook_cancelled`, `preventStart` raises `dragstart_prevented`.
Neither `cancel` nor `preventStart` can lower its flag. -/
def d_apply (s : DState) (o : HookOutcome) : DState :=
  { s with
    proposed := o.proposeCall.getD s.proposed,
    effects := o.effectCalls.foldl set_add s.effects,
    current_drag_hook_cancelled := s.current_drag_hook_cancelled || o.cancelCalled,
    dragstart_prevented := s.dragstart_prevented || o.preventStartCalled }

/-- The loop body of the delegated `run_plugins`: skip absent handlers; skip
cancelable plugins once `current_drag_hook_cancelled` is set; wrap each
invocation in `resultify`, so a throw is reported via the error log and —
like a handler returning `false` — stops the phase with `should_run = false`. -/
def run_plugins_go : List DPlugin → Phase → DState → PEvent → Bool × DState
  | [], _, s, _ => (true, s)
  | p :: rest, hook, s, e =>
    match p.hookOf hook with
    | none => run_plugins_go rest hook s e
    | some h =>
      if s.current_drag_hook_cancelled && p.cancelable then run_plugins_go rest hook s e
      else
        let s0 := { s with hook_trace := s.hook_trace ++ [(p.name, p.priority, hook)] }
        match h (d_ctx s) e with
        | .error err =>
          (false, { s0 with errors := s0.errors ++ [⟨hook, some (p.name, hook), err⟩] })
        | .ok o =>
          let s1 := d_apply s0 o
          if o.retFalse then (false, s1) else run_plugins_go rest hook s1 e

/-- `run_plugins(instance, hook, event)`: resets `dragstart_prevented`
first, then runs the chain. -/
def run_plugins (ps : List DPlugin) (hook : Phase) (s : DState) (e : PEvent) : Bool × DState :=
  run_plugins_go ps hook { s with dragstart_prevented := false } e

/-- Execute every queued effect, then clear the queue. -/
def flush_effects (s : DState) : DState :=
  { s with ran_effects := s.ran_effects ++ s.effects, effects := [] }

/-- Clear the queue without executing anything. -/
def clear_effects (s : DState) : DState :=
  { s with effects := [] }

/-- `cleanup_active_node()`: if this instance is the active node, release
capture (DOM, abstracted), reset the drag state, drop the active-node
reference and clear pending effects. -/
def cleanup_active_node (s : DState) : DState :=
  if !s.active then s else
  clear_effects
    { s with isInteracting := false, isDragging := false, dragstart_prevented := false,
             pointer_captured_id := none, active := false }

/-- The raw per-move delta of `handle_pointer_move`: pointer position minus
anchor minus already-committed offset, per axis. -/
def raw_delta (e : PEvent) (s : DState) : Int × Int :=
  (e.clientX - s.initial.1 - s.offset.1, e.clientY - s.initial.2 - s.offset.2)

/-- One committed move's `drag` chain: the raw delta is written into
`ctx.delta` and into `ctx.proposed`, then `run_plugins('drag')` runs. -/
def move_chain (ps : List DPlugin) (e : PEvent) (s : DState) : Bool × DState :=
  run_plugins ps .drag
    { s with delta := raw_delta e s,
             proposed := (some (raw_delta e s).1, some (raw_delta e s).2) } e

/-- The committed-move section of `handle_pointer_move` (after the
`isDragging` guard): run the move's `drag` chain (`move_chain`); flush and
commit `offset += proposed ?? 0` if the chain succeeded, else clear. -/
def move_core (ps : List DPlugin) (e : PEvent) (s : DState) : DState :=
  let r := move_chain ps e s
  if r.1 then
    let s3 := flush_effects r.2
    { s3 with offset := (s3.offset.1 + s3.proposed.1.getD 0,
                         s3.offset.2 + s3.proposed.2.getD 0) }
  else clear_effects r.2

/-- The not-yet-dragging section of `handle_pointer_move` (after the
`isDragging` test): run a preliminary `drag` chain (result discarded),
then — unless a hook called `preventStart` or `cancel` — the `dragStart`
chain; on veto clear effects and return, on success flush, set `isDragging`
and fall through to `move_core`. -/
def hpm_start (ps : List DPlugin) (e : PEvent) (s1 : DState) : DState :=
  let r1 := run_plugins ps .drag s1 e
  if !r1.2.dragstart_prevented && !r1.2.current_drag_hook_cancelled then
    let r2 := run_plugins ps .dragStart r1.2 e
    if !r2.1 then clear_effects r2.2
    else
      let s4 := { flush_effects r2.2 with isDragging := true }
      move_core ps e s4
  else r1.2

/-- `handle_pointer_move(e)` of the delegated engine.  While not yet
dragging it runs `hpm_start` (a preliminary `drag` chain, then the
`dragStart` chain); once dragging, `move_core` commits the move. -/
def handle_pointer_move (ps : List DPlugin) (e : PEvent) (s : DState) : DState :=
  if !s.active then s else
  if !s.isInteracting then s else
  let s0 := { s with lastEvent := some e }
  if s0.isDragging then move_core ps e s0
  else hpm_start ps e { s0 with dragstart_prevented := false }

/-- `handle_pointer_up(e)` of the delegated engine: release capture (DOM,
abstracted), run the `dragEnd` chain (result discarded), flush effects
unconditionally, re-anchor `initial` on truthy proposals, zero the
proposals and reset the instance's interaction state. -/
def handle_pointer_up (ps : List DPlugin) (e : PEvent) (s : DState) : DState :=
  if !s.active then s else
  if !s.isInteracting then s else
  let r := run_plugins ps .dragEnd s e
  let s2 := flush_effects r.2
  let s3 := if js_truthy s2.proposed.1 then { s2 with initial := (s2.offset.1, s2.initial.2) } else s2
  let s4 := if js_truthy s3.proposed.2 then { s3 with initial := (s3.initial.1, s3.offset.2) } else s3
  clear_effects
    { s4 with proposed := (some 0, some 0), isInteracting := false, isDragging := false,
              dragstart_prevented := false, pointer_captured_id := none }

/-- `initialize_plugins(new_plugins)` of `createDraggable`: deduplicate
`[...new_plugins, ...initial_plugins]` by name with replacement on
equal-or-higher priority, then stable-sort by
`(b.priority ?? 0) - (a.priority ?? 0)`, i.e. descending priority. -/
def init_plugins (new_plugins initial_plugins : List DPlugin) : List DPlugin :=
  stable_sort (fun a b => b.priority < a.priority)
    ((new_plugins ++ initial_plugins).foldl
      (register_plugin DPlugin.name DPlugin.priority (fun a b => b ≤ a)) [])

/-- The setup loop of `createDraggable`'s `draggable`: for each plugin of the
deduplicated, sorted list, `resultify` runs `plugin.setup?.(ctx)` followed by
`flush_effects`; a throw is reported and skips that plugin's flush. -/
def attach_setup (ps : List DPlugin) (s : DState) : DState :=
  ps.foldl
    (fun st p =>
      match p.setup with
      | none => flush_effects st
      | some h =>
        match h (d_ctx st) with
        | .error err =>
          { st with hook_trace := st.hook_trace ++ [(p.name, p.priority, Phase.setup)],
                    errors := st.errors ++ [⟨Phase.setup, some (p.name, Phase.setup), err⟩] }
        | .ok o =>
          flush_effects
            (d_apply { st with hook_trace := st.hook_trace ++ [(p.name, p.priority, Phase.setup)] }
              o))
    s

end Delegated

/-- `Math.ceil(val / snap) * snap` with the `snap === 0 ? 0` guard — the
`calc` helper shared by `snap_to_grid` (part of the `grid` plugin) and the
core package's `snapToGrid`. -/
def calc_snap (val snap : Int) : Int :=
  if snap = 0 then 0 else ⌈(val : ℚ) / (snap : ℚ)⌉ * snap

/-- `snap_to_grid([x_snap, y_snap], pending_x, pending_y)`: each axis is
snapped only when its pending value is truthy (non-null and non-zero);
falsy values are returned unchanged. -/
def snap_to_grid (snaps : Int × Int) (pending_x pending_y : Option Int) :
    Option Int × Option Int :=
  (match pending_x with
   | some v => if v = 0 then some v else some (calc_snap v snaps.1)
   | none => none,
   match pending_y with
   | some v => if v = 0 then some v else some (calc_snap v snaps.2)
   | none => none)

/-- `snapToGrid` of the core package (`memoize` is transparent): both axes
are snapped unconditionally with `calc`. -/
def snapToGrid (snaps : Int × Int) (pendingX pendingY : Int) : Int × Int :=
  (calc_snap pendingX snaps.1, calc_snap pendingY snaps.2)

/-- The `axis` plugin's configuration value. -/
inductive AxisValue where
  | both
  | x
  | y
  | none
  deriving DecidableEq, Repr

/-- The `axis` plugin: `shouldDrag` returns `value !== 'none'`; `setup`
computes the degrees of freedom `df`; `drag` proposes the current proposal on
a free axis and `null` on a locked one.  `df` is inlined as a pure function
of the configuration, as the source computes it from `value` alone. -/
def axis (value : AxisValue) : Single.SPlugin :=
  { name := "neodrag:axis"
    setup := some (fun _ => {})
    shouldDrag := some (fun _ _ => { retFalse := value == AxisValue.none })
    drag := some (fun c _ =>
      { proposeCall := some
          (if value == AxisValue.both || value == AxisValue.x then c.proposed.1 else none,
           if value == AxisValue.both || value == AxisValue.y then c.proposed.2 else none) }) }

/-- The `grid(x, y)` plugin: its `drag` hook proposes
`snap_to_grid([x, y], ctx.proposed.x, ctx.proposed.y)`. -/
def grid (x y : Int) : Single.SPlugin :=
  { name := "neodrag:grid"
    drag := some (fun c _ =>
      { proposeCall := some (snap_to_grid (x, y) c.proposed.1 c.proposed.2) }) }

/-- The `disabled` plugin: `shouldDrag` returns `false` unconditionally. -/
def disabled : Single.SPlugin :=
  { name := "neodrag:disabled"
    shouldDrag := some (fun _ _ => { retFalse := true }) }

/-! Concrete test plugins used by the counterexamples and witnesses. -/

/-- A single-instance plugin whose `drag` hook always proposes `(v, v)`. -/
def writerS (nm : String) (pr : Int) (v : Int) : Single.SPlugin :=
  { name := nm
    priority := pr
    drag := some (fun _ _ => { proposeCall := some (some v, some v) }) }

/-- A single-instance plugin with a (no-op) `setup` hook. -/
def setupS (nm : String) (pr : Int) : Single.SPlugin :=
  { name := nm
    priority := pr
    setup := some (fun _ => {}) }

/-- A single-instance plugin whose `drag` hook queues effect `k`. -/
def sEffect (nm : String) (k : Nat) : Single.SPlugin :=
  { name := nm
    drag := some (fun _ _ => { effectCalls := [k] }) }

/-- A delegated plugin whose `drag` hook queues effect `k`. -/
def dEffect (nm : String) (k : Nat) : Delegated.DPlugin :=
  { name := nm
    drag := some (fun _ _ => Except.ok { effectCalls := [k] }) }

/-- A delegated plugin with a (no-op) `setup` hook. -/
def dSetup (nm : String) (pr : Int) : Delegated.DPlugin :=
  { name := nm
    priority := pr
    setup := some (fun _ => Except.ok {}) }

/-- A delegated plugin whose `dragEnd` hook queues effect `k`. -/
def dEndEffect (nm : String) (k : Nat) : Delegated.DPlugin :=
  { name := nm
    dragEnd := some (fun _ _ => Except.ok { effectCalls := [k] }) }

/-- A delegated plugin whose `dragEnd` hook returns `false`. -/
def dEndVeto (nm : String) : Delegated.DPlugin :=
  { name := nm
    dragEnd := some (fun _ _ => Except.ok { retFalse := true }) }

/-- A delegated plugin whose `drag` hook queues effect `k` and then returns
`false`, and whose `dragStart` hook succeeds — used to observe the fate of
effects queued by a vetoed preliminary drag chain. -/
def dPrelimVeto (nm : String) (k : Nat) : Delegated.DPlugin :=
  { name := nm
    drag := some (fun _ _ => Except.ok { retFalse := true, effectCalls := [k] })
    dragStart := some (fun _ _ => Except.ok {}) }

/-- A single-instance plugin whose `dragStart` hook queues effect `k`. -/
def sStartEffect (nm : String) (k : Nat) : Single.SPlugin :=
  { name := nm
    dragStart := some (fun _ _ => { effectCalls := [k] }) }

/-- A delegated plugin with no-op `drag` and `dragStart` hooks, used to
observe the order in which the engine dispatches the two phases. -/
def dLifecycle (nm : String) : Delegated.DPlugin :=
  { name := nm
    drag := some (fun _ _ => Except.ok {})
    dragStart := some (fun _ _ => Except.ok {}) }

/-- A delegated plugin whose hook for phase `drag` always throws `k`. -/
def dThrow (nm : String) (k : Nat) : Delegated.DPlugin :=
  { name := nm
    drag := some (fun _ _ => Except.error k) }

/-- A delegated plugin whose `drag` hook always proposes `(v, v)`. -/
def dWriter (nm : String) (pr v : Int) : Delegated.DPlugin :=
  { name := nm
    priority := pr
    drag := some (fun _ _ => Except.ok { proposeCall := some (some v, some v) }) }

/-- A concrete pointer event at the origin. -/
def ev0 : PEvent := { clientX := 0, clientY := 0 }

/-- A freshly attached delegated instance. -/
def dInit : Delegated.DState := {}

/-- A delegated instance in the middle of a drag (the active node). -/
def dDrag : Delegated.DState := { active := true, isInteracting := true, isDragging := true }

/-- A single-instance engine state in the middle of a drag. -/
def sDrag : Single.SState := { is_interacting := true, is_dragging := true }

/-- A single-instance engine state interacting with both thresholds met but
not yet dragging — the state in which `try_start_drag` fires. -/
def sReady : Single.SState :=
  { is_interacting := true, meets_distance_threshold := true, meets_time_threshold := true }

/-- A delegated instance that is the active node, interacting, not yet
dragging. -/
def dAct : Delegated.DState := { active := true, isInteracting := true }

/-- The single-instance state components that no plugin chain can touch:
`run_plugins` only ever modifies `proposals`, `effects_to_run`,
`current_drag_hook_cancelled` and the invocation trace. -/
def s_frame (s t : Single.SState) : Prop :=
  t.x_offset = s.x_offset ∧ t.y_offset = s.y_offset ∧
  t.events = s.events ∧ t.ran_effects = s.ran_effects ∧
  t.is_interacting = s.is_interacting ∧ t.is_dragging = s.is_dragging ∧
  t.initial_x = s.initial_x ∧ t.initial_y = s.initial_y ∧
  t.start_time = s.start_time ∧
  t.meets_time_threshold = s.meets_time_threshold ∧
  t.meets_distance_threshold = s.meets_distance_threshold ∧
  t.delta = s.delta

/-- The delegated-instance state components that no plugin chain can touch:
the delegated `run_plugins` only ever modifies `proposed`, `effects`,
`current_drag_hook_cancelled`, `dragstart_prevented`, the error log and the
invocation trace. -/
def d_frame (s t : Delegated.DState) : Prop :=
  t.active = s.active ∧ t.offset = s.offset ∧ t.initial = s.initial ∧
  t.isDragging = s.isDragging ∧ t.isInteracting = s.isInteracting ∧
  t.ran_effects = s.ran_effects ∧ t.lastEvent = s.lastEvent ∧
  t.pointer_captured_id = s.pointer_captured_id ∧ t.delta = s.delta

end Neodrag

namespace Neodrag

/-! Frame, trace and monotonicity lemmas about the plugin chains. -/

theorem s_frame_refl (s : Single.SState) : s_frame s s :=
  ⟨rfl, rfl, rfl, rfl, rfl, rfl, rfl, rfl, rfl, rfl, rfl, rfl⟩

theorem s_frame_trans {s t u : Single.SState} (h1 : s_frame s t) (h2 : s_frame t u) :
    s_frame s u := by
  obtain ⟨a1, a2, a3, a4, a5, a6, a7, a8, a9, a10, a11, a12⟩ := h1
  obtain ⟨b1, b2, b3, b4, b5, b6, b7, b8, b9, b10, b11, b12⟩ := h2
  exact ⟨b1.trans a1, b2.trans a2, b3.trans a3, b4.trans a4, b5.trans a5, b6.trans a6,
    b7.trans a7, b8.trans a8, b9.trans a9, b10.trans a10, b11.trans a11, b12.trans a12⟩

theorem run_plugins_s_frame (ps : List Single.SPlugin) (ph : Phase) (s : Single.SState)
    (e : PEvent) : s_frame s (Single.run_plugins ps ph s e).2 := by
  induction ps generalizing s with
  | nil => exact s_frame_refl s
  | cons p rest ih =>
    rcases hp : p.hookOf ph with _ | h
    · simpa only [Single.run_plugins, hp] using ih s
    · simp only [Single.run_plugins, hp]
      by_cases hrf : (h (Single.s_ctx s) e).retFalse = true
      · rw [if_pos hrf]
        exact s_frame_refl s
      · rw [if_neg hrf]
        by_cases hc :
            (Single.s_apply
              { s with hook_trace := s.hook_trace ++ [(p.name, p.priority, ph)] }
              (h (Single.s_ctx s) e)).current_drag_hook_cancelled = true
        · rw [if_pos hc]
          exact s_frame_refl s
        · rw [if_neg hc]
          exact s_frame_trans (s_frame_refl s) (ih _)

theorem run_plugins_s_trace (ps : List Single.SPlugin) (ph : Phase) (s : Single.SState)
    (e : PEvent) :
    ∃ t, (Single.run_plugins ps ph s e).2.hook_trace = s.hook_trace ++ t
      ∧ ∀ x ∈ t, x.2.2 = ph := by
  induction ps generalizing s with
  | nil => exact ⟨[], (List.append_nil _).symm, by simp⟩
  | cons p rest ih =>
    rcases hp : p.hookOf ph with _ | h
    · simpa only [Single.run_plugins, hp] using ih s
    · simp only [Single.run_plugins, hp]
      by_cases hrf : (h (Single.s_ctx s) e).retFalse = true
      · rw [if_pos hrf]
        exact ⟨[(p.name, p.priority, ph)], rfl, by simp⟩
      · rw [if_neg hrf]
        by_cases hc :
            (Single.s_apply
              { s with hook_trace := s.hook_trace ++ [(p.name, p.priority, ph)] }
              (h (Single.s_ctx s) e)).current_drag_hook_cancelled = true
        · rw [if_pos hc]
          exact ⟨[(p.name, p.priority, ph)], rfl, by simp⟩
        · rw [if_neg hc]
          obtain ⟨t, ht, hall⟩ := ih
            (Single.s_apply
              { s with hook_trace := s.hook_trace ++ [(p.name, p.priority, ph)] }
              (h (Single.s_ctx s) e))
          refine ⟨(p.name, p.priority, ph) :: t, ?_, ?_⟩
          · rw [ht]
            show (s.hook_trace ++ [(p.name, p.priority, ph)]) ++ t
              = s.hook_trace ++ ((p.name, p.priority, ph) :: t)
            simp
          · intro x hx
            rcases List.mem_cons.1 hx with hx | hx
            · rw [hx]
            · exact hall x hx

theorem d_frame_refl (s : Delegated.DState) : d_frame s s :=
  ⟨rfl, rfl, rfl, rfl, rfl, rfl, rfl, rfl, rfl⟩

theorem d_frame_trans {s t u : Delegated.DState} (h1 : d_frame s t) (h2 : d_frame t u) :
    d_frame s u := by
  obtain ⟨a1, a2, a3, a4, a5, a6, a7, a8, a9⟩ := h1
  obtain ⟨b1, b2, b3, b4, b5, b6, b7, b8, b9⟩ := h2
  exact ⟨b1.trans a1, b2.trans a2, b3.trans a3, b4.trans a4, b5.trans a5, b6.trans a6,
    b7.trans a7, b8.trans a8, b9.trans a9⟩

theorem run_go_d_frame (ps : List Delegated.DPlugin) (ph : Phase) (s : Delegated.DState)
    (e : PEvent) : d_frame s (Delegated.run_plugins_go ps ph s e).2 := by
  induction ps generalizing s with
  | nil => exact d_frame_refl s
  | cons p rest ih =>
    rcases hp : p.hookOf ph with _ | h
    · simpa only [Delegated.run_plugins_go, hp] using ih s
    · simp only [Delegated.run_plugins_go, hp]
      by_cases hsk : (s.current_drag_hook_cancelled && p.cancelable) = true
      · rw [if_pos hsk]
        exact ih s
      · rw [if_neg hsk]
        split
        · exact d_frame_refl s
        · rename_i o heq
          by_cases hrf : o.retFalse = true
          · rw [if_pos hrf]
            exact d_frame_refl s
          · rw [if_neg hrf]
            exact d_frame_trans (d_frame_refl s) (ih _)

theorem run_plugins_d_frame (ps : List Delegated.DPlugin) (ph : Phase) (s : Delegated.DState)
    (e : PEvent) : d_frame s (Delegated.run_plugins ps ph s e).2 :=
  d_frame_trans (d_frame_refl s)
    (run_go_d_frame ps ph { s with dragstart_prevented := false } e)

theorem run_go_d_trace (ps : List Delegated.DPlugin) (ph : Phase) (s : Delegated.DState)
    (e : PEvent) :
    ∃ t, (Delegated.run_plugins_go ps ph s e).2.hook_trace = s.hook_trace ++ t
      ∧ ∀ x ∈ t, x.2.2 = ph := by
  induction ps generalizing s with
  | nil => exact ⟨[], (List.append_nil _).symm, by simp⟩
  | cons p rest ih =>
    rcases hp : p.hookOf ph with _ | h
    · simpa only [Delegated.run_plugins_go, hp] using ih s
    · simp only [Delegated.run_plugins_go, hp]
      by_cases hsk : (s.current_drag_hook_cancelled && p.cancelable) = true
      · rw [if_pos hsk]
        exact ih s
      · rw [if_neg hsk]
        split
        · exact ⟨[(p.name, p.priority, ph)], rfl, by simp⟩
        · rename_i o heq
          by_cases hrf : o.retFalse = true
          · rw [if_pos hrf]
            exact ⟨[(p.name, p.priority, ph)], rfl, by simp⟩
          · rw [if_neg hrf]
            obtain ⟨t, ht, hall⟩ := ih
              (Delegated.d_apply
                { s with hook_trace := s.hook_trace ++ [(p.name, p.priority, ph)] } o)
            refine ⟨(p.name, p.priority, ph) :: t, ?_, ?_⟩
            · rw [ht]
              show (s.hook_trace ++ [(p.name, p.priority, ph)]) ++ t
                = s.hook_trace ++ ((p.name, p.priority, ph) :: t)
              simp
            · intro x hx
              rcases List.mem_cons.1 hx with hx | hx
              · rw [hx]
              · exact hall x hx

theorem run_plugins_d_trace (ps : List Delegated.DPlugin) (ph : Phase) (s : Delegated.DState)
    (e : PEvent) :
    ∃ t, (Delegated.run_plugins ps ph s e).2.hook_trace = s.hook_trace ++ t
      ∧ ∀ x ∈ t, x.2.2 = ph :=
  run_go_d_trace ps ph { s with dragstart_prevented := false } e

theorem run_go_cancel_mono (ps : List Delegated.DPlugin) (ph : Phase) (s : Delegated.DState)
    (e : PEvent) (hc : s.current_drag_hook_cancelled = true) :
    (Delegated.run_plugins_go ps ph s e).2.current_drag_hook_cancelled = true := by
  induction ps generalizing s with
  | nil => exact hc
  | cons p rest ih =>
    rcases hp : p.hookOf ph with _ | h
    · simpa only [Delegated.run_plugins_go, hp] using ih s hc
    · simp only [Delegated.run_plugins_go, hp]
      by_cases hsk : (s.current_drag_hook_cancelled && p.cancelable) = true
      · rw [if_pos hsk]
        exact ih s hc
      · rw [if_neg hsk]
        split
        · exact hc
        · rename_i o heq
          by_cases hrf : o.retFalse = true
          · rw [if_pos hrf]
            show (s.current_drag_hook_cancelled || o.cancelCalled) = true
            rw [hc]
            rfl
          · rw [if_neg hrf]
            exact ih
              (Delegated.d_apply
                { s with hook_trace := s.hook_trace ++ [(p.name, p.priority, ph)] } o)
              (by show (s.current_drag_hook_cancelled || o.cancelCalled) = true
                  rw [hc]
                  rfl)

theorem run_plugins_cancel_mono (ps : List Delegated.DPlugin) (ph : Phase)
    (s : Delegated.DState) (e : PEvent) (hc : s.current_drag_hook_cancelled = true) :
    (Delegated.run_plugins ps ph s e).2.current_drag_hook_cancelled = true :=
  run_go_cancel_mono ps ph { s with dragstart_prevented := false } e hc

theorem run_go_cancelled_skips (ps : List Delegated.DPlugin) (ph : Phase)
    (s : Delegated.DState) (e : PEvent) (hc : s.current_drag_hook_cancelled = true) :
    ∃ t, (Delegated.run_plugins_go ps ph s e).2.hook_trace = s.hook_trace ++ t
      ∧ ∀ x ∈ t, ∃ p ∈ ps, p.name = x.1 ∧ p.cancelable = false := by
  induction ps generalizing s with
  | nil => exact ⟨[], (List.append_nil _).symm, by simp⟩
  | cons p rest ih =>
    rcases hp : p.hookOf ph with _ | h
    · simp only [Delegated.run_plugins_go, hp]
      obtain ⟨t, ht, hall⟩ := ih s hc
      refine ⟨t, ht, ?_⟩
      intro x hx
      obtain ⟨q, hq1, hq2⟩ := hall x hx
      exact ⟨q, List.mem_cons_of_mem p hq1, hq2⟩
    · simp only [Delegated.run_plugins_go, hp]
      by_cases hcb : p.cancelable = true
      · rw [if_pos (by rw [hc, hcb]; rfl)]
        obtain ⟨t, ht, hall⟩ := ih s hc
        refine ⟨t, ht, ?_⟩
        intro x hx
        obtain ⟨q, hq1, hq2⟩ := hall x hx
        exact ⟨q, List.mem_cons_of_mem p hq1, hq2⟩
      · have hcbf : p.cancelable = false := by
          cases hv : p.cancelable
          · rfl
          · exact absurd hv hcb
        rw [if_neg (by rw [hc, hcbf]; exact Bool.false_ne_true)]
        split
        · refine ⟨[(p.name, p.priority, ph)], rfl, ?_⟩
          intro x hx
          rcases List.mem_cons.1 hx with hx | hx
          · exact ⟨p, List.mem_cons_self p rest, by rw [hx], hcbf⟩
          · simp at hx
        · rename_i o heq
          by_cases hrf : o.retFalse = true
          · rw [if_pos hrf]
            refine ⟨[(p.name, p.priority, ph)], rfl, ?_⟩
            intro x hx
            rcases List.mem_cons.1 hx with hx | hx
            · exact ⟨p, List.mem_cons_self p rest, by rw [hx], hcbf⟩
            · simp at hx
          · rw [if_neg hrf]
            obtain ⟨t, ht, hall⟩ := ih
              (Delegated.d_apply
                { s with hook_trace := s.hook_trace ++ [(p.name, p.priority, ph)] } o)
              (by show (s.current_drag_hook_cancelled || o.cancelCalled) = true
                  rw [hc]
                  rfl)
            refine ⟨(p.name, p.priority, ph) :: t, ?_, ?_⟩
            · rw [ht]
              show (s.hook_trace ++ [(p.name, p.priority, ph)]) ++ t
                = s.hook_trace ++ ((p.name, p.priority, ph) :: t)
              simp
            · intro x hx
              rcases List.mem_cons.1 hx with hx | hx
              · exact ⟨p, List.mem_cons_self p rest, by rw [hx], hcbf⟩
              · obtain ⟨q, hq1, hq2⟩ := hall x hx
                exact ⟨q, List.mem_cons_of_mem p hq1, hq2⟩

theorem run_plugins_cancelled_skips (ps : List Delegated.DPlugin) (ph : Phase)
    (s : Delegated.DState) (e : PEvent) (hc : s.current_drag_hook_cancelled = true) :
    ∃ t, (Delegated.run_plugins ps ph s e).2.hook_trace = s.hook_trace ++ t
      ∧ ∀ x ∈ t, ∃ p ∈ ps, p.name = x.1 ∧ p.cancelable = false :=
  run_go_cancelled_skips ps ph { s with dragstart_prevented := false } e hc

theorem move_core_cancel_mono (ps : List Delegated.DPlugin) (e : PEvent)
    (s : Delegated.DState) (hc : s.current_drag_hook_cancelled = true) :
    (Delegated.move_core ps e s).current_drag_hook_cancelled = true := by
  simp only [Delegated.move_core]
  split
  · exact run_plugins_cancel_mono ps Phase.drag _ e hc
  · exact run_plugins_cancel_mono ps Phase.drag _ e hc

theorem hpm_start_cancel_mono (ps : List Delegated.DPlugin) (e : PEvent)
    (s1 : Delegated.DState) (hc : s1.current_drag_hook_cancelled = true) :
    (Delegated.hpm_start ps e s1).current_drag_hook_cancelled = true := by
  simp only [Delegated.hpm_start]
  have h1 : (Delegated.run_plugins ps Phase.drag s1 e).2.current_drag_hook_cancelled = true :=
    run_plugins_cancel_mono ps Phase.drag s1 e hc
  split
  · rename_i hcond
    rw [h1] at hcond
    simp at hcond
  · exact h1

theorem hpm_cancel_mono (ps : List Delegated.DPlugin) (e : PEvent) (s : Delegated.DState)
    (hc : s.current_drag_hook_cancelled = true) :
    (Delegated.handle_pointer_move ps e s).current_drag_hook_cancelled = true := by
  simp only [Delegated.handle_pointer_move]
  split
  · exact hc
  · split
    · exact hc
    · split
      · exact move_core_cancel_mono ps e _ hc
      · exact hpm_start_cancel_mono ps e _ hc

theorem hpu_cancel_mono (ps : List Delegated.DPlugin) (e : PEvent) (s : Delegated.DState)
    (hc : s.current_drag_hook_cancelled = true) :
    (Delegated.handle_pointer_up ps e s).current_drag_hook_cancelled = true := by
  simp only [Delegated.handle_pointer_up]
  split
  · exact hc
  · split
    · exact hc
    · have h1 := run_plugins_cancel_mono ps Phase.dragEnd s e hc
      split
      · split
        · exact h1
        · exact h1
      · split
        · exact h1
        · exact h1

theorem cleanup_cancel_mono (s : Delegated.DState)
    (hc : s.current_drag_hook_cancelled = true) :
    (Delegated.cleanup_active_node s).current_drag_hook_cancelled = true := by
  simp only [Delegated.cleanup_active_node]
  split
  · exact hc
  · exact hc

/-- C10: in the delegated engine, once `ctx.cancel()` has set
`current_drag_hook_cancelled`, no code path resets it — phase dispatch
(`run_plugins`), `handle_pointer_move`, `handle_pointer_up` and
`cleanup_active_node` all preserve the raised flag — and while it is raised
every phase dispatch skips the hooks of every plugin whose `cancelable` flag
is not `false`: each invocation the chain still makes comes from a plugin
with `cancelable = false`. -/
theorem c10_cancel_sticky :
    (∀ (ps : List Delegated.DPlugin) (ph : Phase) (s : Delegated.DState) (e : PEvent),
       s.current_drag_hook_cancelled = true →
       (Delegated.run_plugins ps ph s e).2.current_drag_hook_cancelled = true
       ∧ ∃ t, (Delegated.run_plugins ps ph s e).2.hook_trace = s.hook_trace ++ t
            ∧ ∀ x ∈ t, ∃ p ∈ ps, p.name = x.1 ∧ p.cancelable = false)
    ∧ (∀ (ps : List Delegated.DPlugin) (e : PEvent) (s : Delegated.DState),
        s.current_drag_hook_cancelled = true →
        (Delegated.handle_pointer_move ps e s).current_drag_hook_cancelled = true)
    ∧ (∀ (ps : List Delegated.DPlugin) (e : PEvent) (s : Delegated.DState),
        s.current_drag_hook_cancelled = true →
        (Delegated.handle_pointer_up ps e s).current_drag_hook_cancelled = true)
    ∧ (∀ (s : Delegated.DState), s.current_drag_hook_cancelled = true →
        (Delegated.cleanup_active_node s).current_drag_hook_cancelled = true) :=
  ⟨fun ps ph s e hc =>
      ⟨run_plugins_cancel_mono ps ph s e hc, run_plugins_cancelled_skips ps ph s e hc⟩,
   fun ps e s hc => hpm_cancel_mono ps e s hc,
   fun ps e s hc => hpu_cancel_mono ps e s hc,
   fun s hc => cleanup_cancel_mono s hc⟩

/-- Witness for C10 at a concrete cancelled instance and a one-plugin list. -/
theorem c10_cancel_sticky_witness :
    ((Delegated.run_plugins [dLifecycle "p"] Phase.drag
        { current_drag_hook_cancelled := true }
        { clientX := 0, clientY := 0 }).2.current_drag_hook_cancelled = true
      ∧ ∃ t, (Delegated.run_plugins [dLifecycle "p"] Phase.drag
            { current_drag_hook_cancelled := true }
            { clientX := 0, clientY := 0 }).2.hook_trace
          = (Delegated.DState.hook_trace { current_drag_hook_cancelled := true }) ++ t
          ∧ ∀ x ∈ t, ∃ p ∈ [dLifecycle "p"], Delegated.DPlugin.name p = x.1
              ∧ Delegated.DPlugin.cancelable p = false)
    ∧ (Delegated.handle_pointer_move [dLifecycle "p"] { clientX := 0, clientY := 0 }
        { current_drag_hook_cancelled := true }).current_drag_hook_cancelled = true
    ∧ (Delegated.handle_pointer_up [dLifecycle "p"] { clientX := 0, clientY := 0 }
        { current_drag_hook_cancelled := true }).current_drag_hook_cancelled = true
    ∧ (Delegated.cleanup_active_node
        { current_drag_hook_cancelled := true }).current_drag_hook_cancelled = true :=
  ⟨c10_cancel_sticky.1 [dLifecycle "p"] Phase.drag
      { current_drag_hook_cancelled := true } { clientX := 0, clientY := 0 } rfl,
   c10_cancel_sticky.2.1 [dLifecycle "p"] { clientX := 0, clientY := 0 }
      { current_drag_hook_cancelled := true } rfl,
   c10_cancel_sticky.2.2.1 [dLifecycle "p"] { clientX := 0, clientY := 0 }
      { current_drag_hook_cancelled := true } rfl,
   c10_cancel_sticky.2.2.2 { current_drag_hook_cancelled := true } rfl⟩

/-- C7: a pointer-up while an interaction is in progress unconditionally
ends it, in both engines: afterwards `isInteracting` and `isDragging` are
false (whether or not the interaction had reached dragging), and every hook
the handler invokes belongs to the `dragEnd` chain, which is dispatched
regardless of any veto outcome — the hypotheses place no constraint on any
hook's result. -/
theorem c7_pointer_up_ends_interaction :
    (∀ (ps : List Delegated.DPlugin) (e : PEvent) (s : Delegated.DState),
       s.active = true → s.isInteracting = true →
       (Delegated.handle_pointer_up ps e s).isInteracting = false
       ∧ (Delegated.handle_pointer_up ps e s).isDragging = false
       ∧ ∃ t, (Delegated.handle_pointer_up ps e s).hook_trace = s.hook_trace ++ t
            ∧ ∀ x ∈ t, x.2.2 = Phase.dragEnd)
    ∧ (∀ (ps : List Single.SPlugin) (e : PEvent) (s : Single.SState),
       s.is_interacting = true →
       (Single.pointerup ps e s).is_interacting = false
       ∧ (Single.pointerup ps e s).is_dragging = false
       ∧ ∃ t, (Single.pointerup ps e s).hook_trace = s.hook_trace ++ t
            ∧ ∀ x ∈ t, x.2.2 = Phase.dragEnd) := by
  constructor
  · intro ps e s ha hi
    simp only [Delegated.handle_pointer_up]
    rw [if_neg (by rw [ha]; exact Bool.false_ne_true)]
    rw [if_neg (by rw [hi]; exact Bool.false_ne_true)]
    refine ⟨?_, ?_, ?_⟩
    · split <;> split <;> rfl
    · split <;> split <;> rfl
    · obtain ⟨t, ht, hall⟩ := run_plugins_d_trace ps Phase.dragEnd s e
      refine ⟨t, ?_, hall⟩
      split <;> split <;> exact ht
  · intro ps e s hi
    simp only [Single.pointerup]
    rw [if_neg (by rw [hi]; exact Bool.false_ne_true)]
    refine ⟨?_, ?_, ?_⟩
    · split <;> split <;> rfl
    · split <;> split <;> rfl
    · obtain ⟨t, ht, hall⟩ := run_plugins_s_trace ps Phase.dragEnd s e
      refine ⟨t, ?_, hall⟩
      split <;> split <;> exact ht

/-- Witness for C7 at a concrete interacting state for both engines. -/
theorem c7_pointer_up_ends_interaction_witness :
    ((Delegated.handle_pointer_up [dLifecycle "p"] { clientX := 0, clientY := 0 }
        { active := true, isInteracting := true }).isInteracting = false
      ∧ (Delegated.handle_pointer_up [dLifecycle "p"] { clientX := 0, clientY := 0 }
        { active := true, isInteracting := true }).isDragging = false
      ∧ ∃ t, (Delegated.handle_pointer_up [dLifecycle "p"] { clientX := 0, clientY := 0 }
            { active := true, isInteracting := true }).hook_trace
          = (Delegated.DState.hook_trace { active := true, isInteracting := true }) ++ t
          ∧ ∀ x ∈ t, x.2.2 = Phase.dragEnd)
    ∧ ((Single.pointerup [axis AxisValue.x] { clientX := 0, clientY := 0 }
        { is_interacting := true }).is_interacting = false
      ∧ (Single.pointerup [axis AxisValue.x] { clientX := 0, clientY := 0 }
        { is_interacting := true }).is_dragging = false
      ∧ ∃ t, (Single.pointerup [axis AxisValue.x] { clientX := 0, clientY := 0 }
            { is_interacting := true }).hook_trace
          = (Single.SState.hook_trace { is_interacting := true }) ++ t
          ∧ ∀ x ∈ t, x.2.2 = Phase.dragEnd) :=
  ⟨c7_pointer_up_ends_interaction.1 [dLifecycle "p"] { clientX := 0, clientY := 0 }
      { active := true, isInteracting := true } rfl rfl,
   c7_pointer_up_ends_interaction.2 [axis AxisValue.x] { clientX := 0, clientY := 0 }
      { is_interacting := true } rfl⟩

theorem run_go_throw (front back : List Delegated.DPlugin) (p : Delegated.DPlugin)
    (ph : Phase) (h : Delegated.DHook) (errv : Nat) (s : Delegated.DState) (e : PEvent)
    (hc : s.current_drag_hook_cancelled = false)
    (hfront : ∀ q ∈ front, ∀ (hq : Delegated.DHook), q.hookOf ph = some hq →
      ∀ c ev, ∃ o, hq c ev = Except.ok o ∧ o.retFalse = false ∧ o.cancelCalled = false)
    (hp : p.hookOf ph = some h)
    (herr : ∀ c ev, h c ev = Except.error errv) :
    (Delegated.run_plugins_go (front ++ p :: back) ph s e).1 = false
    ∧ (Delegated.run_plugins_go (front ++ p :: back) ph s e).2.errors
        = s.errors ++ [⟨ph, some (p.name, ph), errv⟩]
    ∧ ∃ t, (Delegated.run_plugins_go (front ++ p :: back) ph s e).2.hook_trace
          = s.hook_trace ++ t ++ [(p.name, p.priority, ph)]
        ∧ ∀ x ∈ t, ∃ q ∈ front, q.name = x.1 := by
  induction front generalizing s with
  | nil =>
    simp only [List.nil_append, Delegated.run_plugins_go, hp]
    rw [if_neg (by rw [hc]; exact Bool.false_ne_true)]
    rw [herr (Delegated.d_ctx s) e]
    exact ⟨rfl, rfl, ⟨[], by simp, by simp⟩⟩
  | cons q front ih =>
    rcases hq : q.hookOf ph with _ | hqh
    · simp only [List.cons_append, Delegated.run_plugins_go, hq, List.append_eq]
      obtain ⟨h1, h2, t, ht, hmem⟩ :=
        ih s hc (fun r hr => hfront r (List.mem_cons_of_mem q hr))
      refine ⟨h1, h2, t, ht, ?_⟩
      intro x hx
      obtain ⟨r, hr1, hr2⟩ := hmem x hx
      exact ⟨r, List.mem_cons_of_mem q hr1, hr2⟩
    · simp only [List.cons_append, Delegated.run_plugins_go, hq, List.append_eq]
      obtain ⟨o, ho, hrf, hcc⟩ :=
        hfront q (List.mem_cons_self q front) hqh hq (Delegated.d_ctx s) e
      rw [if_neg (by rw [hc]; exact Bool.false_ne_true)]
      split
      · rename_i err heq
        rw [ho] at heq
        simp at heq
      · rename_i o2 heq
        rw [ho] at heq
        injection heq with h2
        subst h2
        rw [if_neg (by rw [hrf]; exact Bool.false_ne_true)]
        have hc1 : (Delegated.d_apply
            { s with hook_trace := s.hook_trace ++ [(q.name, q.priority, ph)] }
              o).current_drag_hook_cancelled = false := by
          show (s.current_drag_hook_cancelled || o.cancelCalled) = false
          rw [hc, hcc]
          rfl
        obtain ⟨h1, h2, t, ht, hmem⟩ :=
          ih (Delegated.d_apply
            { s with hook_trace := s.hook_trace ++ [(q.name, q.priority, ph)] } o)
            hc1 (fun r hr => hfront r (List.mem_cons_of_mem q hr))
        refine ⟨h1, ?_, ⟨(q.name, q.priority, ph) :: t, ?_, ?_⟩⟩
        · rw [h2]
          rfl
        · rw [ht]
          show (s.hook_trace ++ [(q.name, q.priority, ph)]) ++ t ++ [(p.name, p.priority, ph)]
            = s.hook_trace ++ ((q.name, q.priority, ph) :: t) ++ [(p.name, p.priority, ph)]
          simp
        · intro x hx
          rcases List.mem_cons.1 hx with hx | hx
          · exact ⟨q, List.mem_cons_self q front, by rw [hx]⟩
          · obtain ⟨r, hr1, hr2⟩ := hmem x hx
            exact ⟨r, List.mem_cons_of_mem q hr1, hr2⟩

/-- C6: in the delegated engine, when a plugin's hook throws during a phase,
the exception is caught inside the dispatcher (which returns normally), the
error log receives exactly one new entry naming the phase, the plugin and
its hook, and the underlying error value, the phase reports failure
(`should_run = false`), and the plugins after the thrower are skipped: the
invocation trace ends at the throwing plugin's entry. -/
theorem c6_hook_throw_handling (front back : List Delegated.DPlugin) (p : Delegated.DPlugin)
    (ph : Phase) (h : Delegated.DHook) (errv : Nat) (s : Delegated.DState) (e : PEvent)
    (hc : s.current_drag_hook_cancelled = false)
    (hfront : ∀ q ∈ front, ∀ (hq : Delegated.DHook), q.hookOf ph = some hq →
      ∀ c ev, ∃ o, hq c ev = Except.ok o ∧ o.retFalse = false ∧ o.cancelCalled = false)
    (hp : p.hookOf ph = some h)
    (herr : ∀ c ev, h c ev = Except.error errv) :
    (Delegated.run_plugins (front ++ p :: back) ph s e).1 = false
    ∧ (Delegated.run_plugins (front ++ p :: back) ph s e).2.errors
        = s.errors ++ [⟨ph, some (p.name, ph), errv⟩]
    ∧ ∃ t, (Delegated.run_plugins (front ++ p :: back) ph s e).2.hook_trace
          = s.hook_trace ++ t ++ [(p.name, p.priority, ph)]
        ∧ ∀ x ∈ t, ∃ q ∈ front, q.name = x.1 :=
  run_go_throw front back p ph h errv { s with dragstart_prevented := false } e hc hfront hp herr

/-- Witness for C6: plugin `"b"` throws `42` in the `drag` phase between the
well-behaved plugins `"a"` and `"c"`. -/
theorem c6_hook_throw_handling_witness :
    (Delegated.run_plugins ([dLifecycle "a"] ++ dThrow "b" 42 :: [dLifecycle "c"])
        Phase.drag dInit ev0).1 = false
    ∧ (Delegated.run_plugins ([dLifecycle "a"] ++ dThrow "b" 42 :: [dLifecycle "c"])
        Phase.drag dInit ev0).2.errors
        = dInit.errors ++ [⟨Phase.drag, some ("b", Phase.drag), 42⟩]
    ∧ ∃ t, (Delegated.run_plugins ([dLifecycle "a"] ++ dThrow "b" 42 :: [dLifecycle "c"])
          Phase.drag dInit ev0).2.hook_trace
        = dInit.hook_trace ++ t ++ [("b", (dThrow "b" 42).priority, Phase.drag)]
        ∧ ∀ x ∈ t, ∃ q ∈ [dLifecycle "a"], Delegated.DPlugin.name q = x.1 :=
  c6_hook_throw_handling [dLifecycle "a"] [dLifecycle "c"] (dThrow "b" 42) Phase.drag
    (fun _ _ => Except.error 42) 42 dInit ev0 rfl
    (by intro q hqmem hq hqeq c ev
        have hq1 : q = dLifecycle "a" := by simpa using hqmem
        subst hq1
        have hqeq2 : some (fun _ _ => (Except.ok {} : Except Nat HookOutcome)) = some hq := hqeq
        injection hqeq2 with h2
        exact ⟨{}, by rw [← h2], rfl, rfl⟩)
    rfl (fun _ _ => rfl)

/-- C1: for every pointer-move processed while dragging, both engines
compute the raw delta `pointer − anchor − committed offset` per axis, write
it into `proposed` and run the `drag` hook chain (this is `move_chain`,
built on `raw_delta`); if no plugin vetoed, the engine commits
`offset := offset + proposed` treating a null axis as zero, and the
single-instance engine's external "neodrag" notification carries exactly the
committed offset; if the chain was vetoed, the offset is unchanged and no
notification fires. -/
theorem c1_per_move_commit :
    (∀ (ps : List Single.SPlugin) (th : Single.Threshold) (e : PEvent) (s : Single.SState),
      s.is_interacting = true → s.is_dragging = true →
      ((Single.move_chain ps e s).1 = true →
        (Single.pointermove ps th e s).x_offset
            = s.x_offset + (Single.move_chain ps e s).2.proposals.1.getD 0
        ∧ (Single.pointermove ps th e s).y_offset
            = s.y_offset + (Single.move_chain ps e s).2.proposals.2.getD 0
        ∧ (Single.pointermove ps th e s).events
            = s.events ++ [("neodrag",
                s.x_offset + (Single.move_chain ps e s).2.proposals.1.getD 0,
                s.y_offset + (Single.move_chain ps e s).2.proposals.2.getD 0)])
      ∧ ((Single.move_chain ps e s).1 = false →
        (Single.pointermove ps th e s).x_offset = s.x_offset
        ∧ (Single.pointermove ps th e s).y_offset = s.y_offset
        ∧ (Single.pointermove ps th e s).events = s.events))
    ∧ (∀ (ps : List Delegated.DPlugin) (e : PEvent) (s : Delegated.DState),
      s.active = true → s.isInteracting = true → s.isDragging = true →
      ((Delegated.move_chain ps e { s with lastEvent := some e }).1 = true →
        (Delegated.handle_pointer_move ps e s).offset
            = (s.offset.1
                + (Delegated.move_chain ps e { s with lastEvent := some e }).2.proposed.1.getD 0,
               s.offset.2
                + (Delegated.move_chain ps e { s with lastEvent := some e }).2.proposed.2.getD 0))
      ∧ ((Delegated.move_chain ps e { s with lastEvent := some e }).1 = false →
        (Delegated.handle_pointer_move ps e s).offset = s.offset)) := by
  constructor
  · intro ps th e s hi hd
    have hx : (Single.move_chain ps e s).2.x_offset = s.x_offset :=
      (run_plugins_s_frame ps Phase.drag _ e).1
    have hy : (Single.move_chain ps e s).2.y_offset = s.y_offset :=
      (run_plugins_s_frame ps Phase.drag _ e).2.1
    have hev : (Single.move_chain ps e s).2.events = s.events :=
      (run_plugins_s_frame ps Phase.drag _ e).2.2.1
    simp only [Single.pointermove]
    rw [if_neg (by rw [hi]; exact Bool.false_ne_true)]
    rw [if_neg (by rw [hd]; exact Bool.false_ne_true)]
    simp only [Single.move_commit]
    rw [if_neg (by rw [hd]; exact Bool.false_ne_true)]
    constructor
    · intro hok
      rw [if_pos hok]
      refine ⟨?_, ?_, ?_⟩
      · show (Single.move_chain ps e s).2.x_offset
            + (Single.move_chain ps e s).2.proposals.1.getD 0
          = s.x_offset + (Single.move_chain ps e s).2.proposals.1.getD 0
        rw [hx]
      · show (Single.move_chain ps e s).2.y_offset
            + (Single.move_chain ps e s).2.proposals.2.getD 0
          = s.y_offset + (Single.move_chain ps e s).2.proposals.2.getD 0
        rw [hy]
      · show (Single.move_chain ps e s).2.events
            ++ [("neodrag",
                (Single.move_chain ps e s).2.x_offset
                  + (Single.move_chain ps e s).2.proposals.1.getD 0,
                (Single.move_chain ps e s).2.y_offset
                  + (Single.move_chain ps e s).2.proposals.2.getD 0)]
          = s.events ++ [("neodrag",
                s.x_offset + (Single.move_chain ps e s).2.proposals.1.getD 0,
                s.y_offset + (Single.move_chain ps e s).2.proposals.2.getD 0)]
        rw [hx, hy, hev]
    · intro hbad
      rw [if_neg (by rw [hbad]; exact Bool.false_ne_true)]
      exact ⟨hx, hy, hev⟩
  · intro ps e s ha hi hd
    have hoff : (Delegated.move_chain ps e { s with lastEvent := some e }).2.offset
        = s.offset :=
      (run_plugins_d_frame ps Phase.drag _ e).2.1
    simp only [Delegated.handle_pointer_move]
    rw [if_neg (by rw [ha]; exact Bool.false_ne_true)]
    rw [if_neg (by rw [hi]; exact Bool.false_ne_true)]
    rw [if_pos (show ({ s with lastEvent := some e } : Delegated.DState).isDragging = true
        from hd)]
    simp only [Delegated.move_core]
    constructor
    · intro hok
      rw [if_pos hok]
      show ((Delegated.move_chain ps e { s with lastEvent := some e }).2.offset.1
              + (Delegated.move_chain ps e { s with lastEvent := some e }).2.proposed.1.getD 0,
            (Delegated.move_chain ps e { s with lastEvent := some e }).2.offset.2
              + (Delegated.move_chain ps e { s with lastEvent := some e }).2.proposed.2.getD 0)
          = (s.offset.1
              + (Delegated.move_chain ps e { s with lastEvent := some e }).2.proposed.1.getD 0,
             s.offset.2
              + (Delegated.move_chain ps e { s with lastEvent := some e }).2.proposed.2.getD 0)
      rw [hoff]
    · intro hbad
      rw [if_neg (by rw [hbad]; exact Bool.false_ne_true)]
      exact hoff

/-- Witness for C1: one writer plugin proposing `(5, 5)` in each engine,
from a mid-drag state at offset zero. -/
theorem c1_per_move_commit_witness :
    ((Single.move_chain [writerS "a" 1 5] ev0 sDrag).1 = true
      ∧ ((Single.pointermove [writerS "a" 1 5] {} ev0 sDrag).x_offset
          = sDrag.x_offset + (Single.move_chain [writerS "a" 1 5] ev0 sDrag).2.proposals.1.getD 0
        ∧ (Single.pointermove [writerS "a" 1 5] {} ev0 sDrag).y_offset
          = sDrag.y_offset + (Single.move_chain [writerS "a" 1 5] ev0 sDrag).2.proposals.2.getD 0
        ∧ (Single.pointermove [writerS "a" 1 5] {} ev0 sDrag).events
          = sDrag.events ++ [("neodrag",
              sDrag.x_offset
                + (Single.move_chain [writerS "a" 1 5] ev0 sDrag).2.proposals.1.getD 0,
              sDrag.y_offset
                + (Single.move_chain [writerS "a" 1 5] ev0 sDrag).2.proposals.2.getD 0)]))
    ∧ ((Delegated.move_chain [dWriter "a" 1 5] ev0 { dDrag with lastEvent := some ev0 }).1 = true
      ∧ (Delegated.handle_pointer_move [dWriter "a" 1 5] ev0 dDrag).offset
          = (dDrag.offset.1
              + (Delegated.move_chain [dWriter "a" 1 5] ev0
                  { dDrag with lastEvent := some ev0 }).2.proposed.1.getD 0,
             dDrag.offset.2
              + (Delegated.move_chain [dWriter "a" 1 5] ev0
                  { dDrag with lastEvent := some ev0 }).2.proposed.2.getD 0)) :=
  ⟨⟨by decide,
    (c1_per_move_commit.1 [writerS "a" 1 5] {} ev0 sDrag rfl rfl).1 (by decide)⟩,
   ⟨by decide,
    (c1_per_move_commit.2 [dWriter "a" 1 5] ev0 dDrag rfl rfl rfl).1 (by decide)⟩⟩

/-- C2 counterexample: in the delegated engine's `dragEnd` phase, queued
effects run even though a plugin vetoed the phase.  With plugin `"a"`
queueing effect `7` and plugin `"b"` returning `false`, the `dragEnd` chain
reports a veto, yet `handle_pointer_up` flushes unconditionally and effect
`7` executes — contradicting "cleared without execution" on veto. -/
theorem c2_dragend_flush_after_veto_cex :
    (Delegated.run_plugins [dEndEffect "a" 7, dEndVeto "b"] Phase.dragEnd
        { active := true, isInteracting := true } { clientX := 0, clientY := 0 }).1 = false
    ∧ (Delegated.handle_pointer_up [dEndEffect "a" 7, dEndVeto "b"]
        { clientX := 0, clientY := 0 }
        { active := true, isInteracting := true }).ran_effects = [7] := by
  exact ⟨by decide, by decide⟩

theorem set_add_nodup (l : List Nat) (k : Nat) (h : l.Nodup) : (set_add l k).Nodup := by
  unfold set_add
  split
  · exact h
  · rename_i hk
    simp [List.nodup_append, h, hk]

theorem set_add_extend (l : List Nat) (k : Nat) : ∃ t, set_add l k = l ++ t := by
  unfold set_add
  split
  · exact ⟨[], (List.append_nil l).symm⟩
  · exact ⟨[k], rfl⟩

theorem foldl_set_add_extend (ks : List Nat) (l : List Nat) :
    ∃ t, ks.foldl set_add l = l ++ t := by
  induction ks generalizing l with
  | nil => exact ⟨[], (List.append_nil l).symm⟩
  | cons k ks ih =>
    obtain ⟨t0, ht0⟩ := set_add_extend l k
    obtain ⟨t1, ht1⟩ := ih (set_add l k)
    exact ⟨t0 ++ t1, by rw [List.foldl_cons, ht1, ht0, List.append_assoc]⟩

theorem run_go_effects_extend (ps : List Delegated.DPlugin) (ph : Phase)
    (s : Delegated.DState) (e : PEvent) :
    ∃ t, (Delegated.run_plugins_go ps ph s e).2.effects = s.effects ++ t := by
  induction ps generalizing s with
  | nil => exact ⟨[], (List.append_nil _).symm⟩
  | cons p rest ih =>
    rcases hp : p.hookOf ph with _ | h
    · simpa only [Delegated.run_plugins_go, hp] using ih s
    · simp only [Delegated.run_plugins_go, hp]
      by_cases hsk : (s.current_drag_hook_cancelled && p.cancelable) = true
      · rw [if_pos hsk]
        exact ih s
      · rw [if_neg hsk]
        split
        · exact ⟨[], (List.append_nil _).symm⟩
        · rename_i o heq
          by_cases hrf : o.retFalse = true
          · rw [if_pos hrf]
            exact foldl_set_add_extend o.effectCalls s.effects
          · rw [if_neg hrf]
            obtain ⟨t0, ht0⟩ := foldl_set_add_extend o.effectCalls s.effects
            obtain ⟨t1, ht1⟩ := ih
              (Delegated.d_apply
                { s with hook_trace := s.hook_trace ++ [(p.name, p.priority, ph)] } o)
            refine ⟨t0 ++ t1, ?_⟩
            rw [ht1]
            show o.effectCalls.foldl set_add s.effects ++ t1 = s.effects ++ (t0 ++ t1)
            rw [ht0, List.append_assoc]

theorem run_plugins_effects_extend (ps : List Delegated.DPlugin) (ph : Phase)
    (s : Delegated.DState) (e : PEvent) :
    ∃ t, (Delegated.run_plugins ps ph s e).2.effects = s.effects ++ t :=
  run_go_effects_extend ps ph { s with dragstart_prevented := false } e

theorem move_core_ran_extend (ps : List Delegated.DPlugin) (e : PEvent)
    (s : Delegated.DState) :
    ∃ t, (Delegated.move_core ps e s).ran_effects = s.ran_effects ++ t := by
  have hran : (Delegated.move_chain ps e s).2.ran_effects = s.ran_effects :=
    (run_plugins_d_frame ps Phase.drag _ e).2.2.2.2.2.1
  simp only [Delegated.move_core]
  split
  · refine ⟨(Delegated.move_chain ps e s).2.effects, ?_⟩
    show (Delegated.move_chain ps e s).2.ran_effects ++ (Delegated.move_chain ps e s).2.effects
      = s.ran_effects ++ (Delegated.move_chain ps e s).2.effects
    rw [hran]
  · exact ⟨[], by rw [List.append_nil]; exact hran⟩

/-- C2 amended: the flush-iff-not-vetoed discipline holds phase-locally where
the source implements it.  In the single-instance engine, the drag chain of a
mid-drag `pointermove` and the `dragStart` chain of `try_start_drag` execute
then clear the queued effects on chain success, and clear them without
executing on a veto; in the delegated engine the drag chain of a move
processed while dragging does the same, and a vetoed `dragStart` chain clears
without executing.  The effect queue is a `Set` (duplicate queueing keeps one
copy) and a flush empties the queue, so no queued effect instance runs twice.
The discipline fails elsewhere: in the delegated engine's pre-drag
pointer-move (`hpm_start`, to which `handle_pointer_move` defers), the
preliminary drag chain's queued effects are never cleared on that chain's
veto — whenever the subsequent `dragStart` chain succeeds, its flush executes
all of them (shown generally, and on a concrete vetoed chain); the
single-instance `dragEnd` phase clears queued effects without ever executing
them; and the delegated `handle_pointer_up` flushes unconditionally (the
counterexample). -/
theorem c2_effects_flush_amended :
    (∀ (ps : List Single.SPlugin) (th : Single.Threshold) (e : PEvent) (s : Single.SState),
      s.is_interacting = true → s.is_dragging = true →
      ((Single.move_chain ps e s).1 = true →
        (Single.pointermove ps th e s).ran_effects
            = s.ran_effects ++ (Single.move_chain ps e s).2.effects_to_run
        ∧ (Single.pointermove ps th e s).effects_to_run = [])
      ∧ ((Single.move_chain ps e s).1 = false →
        (Single.pointermove ps th e s).ran_effects = s.ran_effects
        ∧ (Single.pointermove ps th e s).effects_to_run = []))
    ∧ (∀ (ps : List Delegated.DPlugin) (e : PEvent) (s : Delegated.DState),
      s.active = true → s.isInteracting = true → s.isDragging = true →
      ((Delegated.move_chain ps e { s with lastEvent := some e }).1 = true →
        (Delegated.handle_pointer_move ps e s).ran_effects
            = s.ran_effects
              ++ (Delegated.move_chain ps e { s with lastEvent := some e }).2.effects
        ∧ (Delegated.handle_pointer_move ps e s).effects = [])
      ∧ ((Delegated.move_chain ps e { s with lastEvent := some e }).1 = false →
        (Delegated.handle_pointer_move ps e s).ran_effects = s.ran_effects
        ∧ (Delegated.handle_pointer_move ps e s).effects = []))
    ∧ (∀ (ps : List Single.SPlugin) (e : PEvent) (s : Single.SState),
      s.is_interacting = true → s.is_dragging = false →
      s.meets_distance_threshold = true → s.meets_time_threshold = true →
      ((Single.run_plugins ps Phase.dragStart { s with delta := (0, 0) } e).1 = true →
        (Single.try_start_drag ps e s).ran_effects
            = s.ran_effects
              ++ (Single.run_plugins ps Phase.dragStart
                  { s with delta := (0, 0) } e).2.effects_to_run
        ∧ (Single.try_start_drag ps e s).effects_to_run = [])
      ∧ ((Single.run_plugins ps Phase.dragStart { s with delta := (0, 0) } e).1 = false →
        (Single.try_start_drag ps e s).ran_effects = s.ran_effects
        ∧ (Single.try_start_drag ps e s).effects_to_run = []))
    ∧ (∀ (ps : List Delegated.DPlugin) (e : PEvent) (s : Delegated.DState),
      s.active = true → s.isInteracting = true → s.isDragging = false →
      Delegated.handle_pointer_move ps e s
        = Delegated.hpm_start ps e
            { { s with lastEvent := some e } with dragstart_prevented := false })
    ∧ (∀ (ps : List Delegated.DPlugin) (e : PEvent) (s1 : Delegated.DState),
      (Delegated.run_plugins ps Phase.drag s1 e).2.dragstart_prevented = false →
      (Delegated.run_plugins ps Phase.drag s1 e).2.current_drag_hook_cancelled = false →
      ((Delegated.run_plugins ps Phase.dragStart
          (Delegated.run_plugins ps Phase.drag s1 e).2 e).1 = false →
        (Delegated.hpm_start ps e s1).ran_effects = s1.ran_effects
        ∧ (Delegated.hpm_start ps e s1).effects = [])
      ∧ ((Delegated.run_plugins ps Phase.dragStart
          (Delegated.run_plugins ps Phase.drag s1 e).2 e).1 = true →
        ∃ t, (Delegated.hpm_start ps e s1).ran_effects
            = s1.ran_effects
              ++ (Delegated.run_plugins ps Phase.drag s1 e).2.effects ++ t))
    ∧ ((Delegated.run_plugins [dPrelimVeto "a" 7] Phase.drag
          { dAct with lastEvent := some ev0 } ev0).1 = false
      ∧ (Delegated.handle_pointer_move [dPrelimVeto "a" 7] ev0 dAct).ran_effects = [7]
      ∧ (Delegated.handle_pointer_move [dPrelimVeto "a" 7] ev0 dAct).effects = [])
    ∧ (∀ (ps : List Single.SPlugin) (e : PEvent) (s : Single.SState),
      s.is_interacting = true →
      (Single.pointerup ps e s).ran_effects = s.ran_effects
      ∧ (Single.pointerup ps e s).effects_to_run = [])
    ∧ (∀ (l : List Nat) (k : Nat), l.Nodup → (set_add l k).Nodup)
    ∧ (∀ (s : Single.SState),
      (Single.flush_effects s).ran_effects = s.ran_effects ++ s.effects_to_run
      ∧ (Single.flush_effects s).effects_to_run = []) := by
  refine ⟨?_, ?_, ?_, ?_, ?_, ⟨by decide, by decide, by decide⟩, ?_,
    fun l k h => set_add_nodup l k h, fun s => ⟨rfl, rfl⟩⟩
  · intro ps th e s hi hd
    have hran : (Single.move_chain ps e s).2.ran_effects = s.ran_effects :=
      (run_plugins_s_frame ps Phase.drag _ e).2.2.2.1
    simp only [Single.pointermove]
    rw [if_neg (by rw [hi]; exact Bool.false_ne_true)]
    rw [if_neg (by rw [hd]; exact Bool.false_ne_true)]
    simp only [Single.move_commit]
    rw [if_neg (by rw [hd]; exact Bool.false_ne_true)]
    constructor
    · intro hok
      rw [if_pos hok]
      refine ⟨?_, rfl⟩
      show (Single.move_chain ps e s).2.ran_effects
          ++ (Single.move_chain ps e s).2.effects_to_run
        = s.ran_effects ++ (Single.move_chain ps e s).2.effects_to_run
      rw [hran]
    · intro hbad
      rw [if_neg (by rw [hbad]; exact Bool.false_ne_true)]
      exact ⟨hran, rfl⟩
  · intro ps e s ha hi hd
    have hran : (Delegated.move_chain ps e { s with lastEvent := some e }).2.ran_effects
        = s.ran_effects :=
      (run_plugins_d_frame ps Phase.drag _ e).2.2.2.2.2.1
    simp only [Delegated.handle_pointer_move]
    rw [if_neg (by rw [ha]; exact Bool.false_ne_true)]
    rw [if_neg (by rw [hi]; exact Bool.false_ne_true)]
    rw [if_pos (show ({ s with lastEvent := some e } : Delegated.DState).isDragging = true
        from hd)]
    simp only [Delegated.move_core]
    constructor
    · intro hok
      rw [if_pos hok]
      refine ⟨?_, rfl⟩
      show (Delegated.move_chain ps e { s with lastEvent := some e }).2.ran_effects
          ++ (Delegated.move_chain ps e { s with lastEvent := some e }).2.effects
        = s.ran_effects
          ++ (Delegated.move_chain ps e { s with lastEvent := some e }).2.effects
      rw [hran]
    · intro hbad
      rw [if_neg (by rw [hbad]; exact Bool.false_ne_true)]
      exact ⟨hran, rfl⟩
  · intro ps e s hi hd hmd hmt
    have hran : (Single.run_plugins ps Phase.dragStart
        { s with delta := (0, 0) } e).2.ran_effects = s.ran_effects :=
      (run_plugins_s_frame ps Phase.dragStart { s with delta := (0, 0) } e).2.2.2.1
    simp only [Single.try_start_drag]
    rw [if_pos (by rw [hi, hd, hmd, hmt]; rfl)]
    constructor
    · intro hok
      rw [if_neg (by rw [hok]; exact Bool.false_ne_true)]
      refine ⟨?_, rfl⟩
      show (Single.run_plugins ps Phase.dragStart { s with delta := (0, 0) } e).2.ran_effects
          ++ (Single.run_plugins ps Phase.dragStart
              { s with delta := (0, 0) } e).2.effects_to_run
        = s.ran_effects
          ++ (Single.run_plugins ps Phase.dragStart
              { s with delta := (0, 0) } e).2.effects_to_run
      rw [hran]
    · intro hbad
      rw [if_pos (by rw [hbad]; rfl)]
      exact ⟨hran, rfl⟩
  · intro ps e s ha hi hd
    have hd0 : ({ s with lastEvent := some e } : Delegated.DState).isDragging = false := hd
    simp only [Delegated.handle_pointer_move]
    rw [if_neg (by rw [ha]; exact Bool.false_ne_true)]
    rw [if_neg (by rw [hi]; exact Bool.false_ne_true)]
    rw [if_neg (by rw [hd0]; exact Bool.false_ne_true)]
  · intro ps e s1 h2 h3
    have hr1ran : (Delegated.run_plugins ps Phase.drag s1 e).2.ran_effects
        = s1.ran_effects :=
      (run_plugins_d_frame ps Phase.drag s1 e).2.2.2.2.2.1
    have hr2ran : (Delegated.run_plugins ps Phase.dragStart
          (Delegated.run_plugins ps Phase.drag s1 e).2 e).2.ran_effects
        = (Delegated.run_plugins ps Phase.drag s1 e).2.ran_effects :=
      (run_plugins_d_frame ps Phase.dragStart
        (Delegated.run_plugins ps Phase.drag s1 e).2 e).2.2.2.2.2.1
    simp only [Delegated.hpm_start]
    rw [if_pos (by rw [h2, h3]; rfl)]
    constructor
    · intro hv
      rw [if_pos (by rw [hv]; rfl)]
      refine ⟨?_, rfl⟩
      show (Delegated.run_plugins ps Phase.dragStart
          (Delegated.run_plugins ps Phase.drag s1 e).2 e).2.ran_effects = s1.ran_effects
      exact hr2ran.trans hr1ran
    · intro hok
      rw [if_neg (by rw [hok]; exact Bool.false_ne_true)]
      obtain ⟨t1, ht1⟩ := run_plugins_effects_extend ps Phase.dragStart
        (Delegated.run_plugins ps Phase.drag s1 e).2 e
      obtain ⟨t2, ht2⟩ := move_core_ran_extend ps e
        { Delegated.flush_effects (Delegated.run_plugins ps Phase.dragStart
            (Delegated.run_plugins ps Phase.drag s1 e).2 e).2 with isDragging := true }
      refine ⟨t1 ++ t2, ht2.trans ?_⟩
      show ((Delegated.run_plugins ps Phase.dragStart
            (Delegated.run_plugins ps Phase.drag s1 e).2 e).2.ran_effects
          ++ (Delegated.run_plugins ps Phase.dragStart
            (Delegated.run_plugins ps Phase.drag s1 e).2 e).2.effects) ++ t2
        = s1.ran_effects
          ++ (Delegated.run_plugins ps Phase.drag s1 e).2.effects ++ (t1 ++ t2)
      rw [hr2ran, hr1ran, ht1]
      simp only [List.append_assoc]
  · intro ps e s hi
    have hran : (Single.run_plugins ps Phase.dragEnd s e).2.ran_effects = s.ran_effects :=
      (run_plugins_s_frame ps Phase.dragEnd s e).2.2.2.1
    simp only [Single.pointerup]
    rw [if_neg (by rw [hi]; exact Bool.false_ne_true)]
    refine ⟨?_, rfl⟩
    split <;> split <;> exact hran

/-- Witness for C2's amended theorem: one effect-queueing plugin per engine
during a mid-drag move, a dragStart-effect plugin fired by `try_start_drag`,
the pre-drag dispatch equation and the vetoed-preliminary-chain flush at the
concrete vetoing plugin, a dragEnd state for the single engine, and the `Set`
and flush facts at concrete values. -/
theorem c2_effects_flush_amended_witness :
    ((Single.move_chain [sEffect "t" 7] ev0 sDrag).1 = true
      ∧ ((Single.pointermove [sEffect "t" 7] {} ev0 sDrag).ran_effects
          = sDrag.ran_effects ++ (Single.move_chain [sEffect "t" 7] ev0 sDrag).2.effects_to_run
        ∧ (Single.pointermove [sEffect "t" 7] {} ev0 sDrag).effects_to_run = []))
    ∧ ((Delegated.move_chain [dEffect "t" 7] ev0 { dDrag with lastEvent := some ev0 }).1 = true
      ∧ ((Delegated.handle_pointer_move [dEffect "t" 7] ev0 dDrag).ran_effects
          = dDrag.ran_effects
            ++ (Delegated.move_chain [dEffect "t" 7] ev0
                { dDrag with lastEvent := some ev0 }).2.effects
        ∧ (Delegated.handle_pointer_move [dEffect "t" 7] ev0 dDrag).effects = []))
    ∧ ((Single.run_plugins [sStartEffect "t" 7] Phase.dragStart
          { sReady with delta := (0, 0) } ev0).1 = true
      ∧ ((Single.try_start_drag [sStartEffect "t" 7] ev0 sReady).ran_effects
          = sReady.ran_effects
            ++ (Single.run_plugins [sStartEffect "t" 7] Phase.dragStart
                { sReady with delta := (0, 0) } ev0).2.effects_to_run
        ∧ (Single.try_start_drag [sStartEffect "t" 7] ev0 sReady).effects_to_run = []))
    ∧ Delegated.handle_pointer_move [] ev0 dAct
        = Delegated.hpm_start [] ev0
            { { dAct with lastEvent := some ev0 } with dragstart_prevented := false }
    ∧ ((Delegated.run_plugins [dPrelimVeto "a" 7] Phase.drag dInit ev0).2.dragstart_prevented
          = false
      ∧ (Delegated.run_plugins [dPrelimVeto "a" 7] Phase.drag
          dInit ev0).2.current_drag_hook_cancelled = false
      ∧ (Delegated.run_plugins [dPrelimVeto "a" 7] Phase.dragStart
          (Delegated.run_plugins [dPrelimVeto "a" 7] Phase.drag dInit ev0).2 ev0).1 = true
      ∧ ∃ t, (Delegated.hpm_start [dPrelimVeto "a" 7] ev0 dInit).ran_effects
          = dInit.ran_effects
            ++ (Delegated.run_plugins [dPrelimVeto "a" 7] Phase.drag dInit ev0).2.effects ++ t)
    ∧ ((Single.pointerup [sEffect "t" 7] ev0 { is_interacting := true }).ran_effects
          = (Single.SState.ran_effects { is_interacting := true })
      ∧ (Single.pointerup [sEffect "t" 7] ev0 { is_interacting := true }).effects_to_run = [])
    ∧ ([1].Nodup → (set_add [1] 2).Nodup)
    ∧ ((Single.flush_effects sDrag).ran_effects = sDrag.ran_effects ++ sDrag.effects_to_run
      ∧ (Single.flush_effects sDrag).effects_to_run = []) :=
  ⟨⟨by decide,
    (c2_effects_flush_amended.1 [sEffect "t" 7] {} ev0 sDrag rfl rfl).1 (by decide)⟩,
   ⟨by decide,
    (c2_effects_flush_amended.2.1 [dEffect "t" 7] ev0 dDrag rfl rfl rfl).1 (by decide)⟩,
   ⟨by decide,
    (c2_effects_flush_amended.2.2.1 [sStartEffect "t" 7] ev0 sReady
      rfl rfl rfl rfl).1 (by decide)⟩,
   c2_effects_flush_amended.2.2.2.1 [] ev0 dAct rfl rfl rfl,
   ⟨by decide, by decide, by decide,
    (c2_effects_flush_amended.2.2.2.2.1 [dPrelimVeto "a" 7] ev0 dInit
      (by decide) (by decide)).2 (by decide)⟩,
   c2_effects_flush_amended.2.2.2.2.2.2.1 [sEffect "t" 7] ev0 { is_interacting := true } rfl,
   c2_effects_flush_amended.2.2.2.2.2.2.2.1 [1] 2,
   c2_effects_flush_amended.2.2.2.2.2.2.2.2 sDrag⟩

theorem insert_stable_perm {α : Type} (lt : α → α → Bool) (a : α) (l : List α) :
    List.Perm (insert_stable lt a l) (a :: l) := by
  induction l with
  | nil => exact List.Perm.refl _
  | cons b bs ih =>
    simp only [insert_stable]
    split
    · exact (ih.cons b).trans (List.Perm.swap a b bs)
    · exact List.Perm.refl _

theorem mem_insert_stable {α : Type} {lt : α → α → Bool} {a x : α} {l : List α}
    (h : x ∈ insert_stable lt a l) : x = a ∨ x ∈ l := by
  have h2 := (insert_stable_perm lt a l).mem_iff.mp h
  simpa using h2

theorem insert_stable_pairwise {α : Type} (lt : α → α → Bool) (R : α → α → Prop)
    (hR1 : ∀ a b, lt a b = true → R a b)
    (hR2 : ∀ a b, lt b a = false → R a b)
    (htrans : ∀ a b c, R a b → R b c → R a c)
    (a : α) : ∀ (l : List α), l.Pairwise R → (insert_stable lt a l).Pairwise R := by
  intro l
  induction l with
  | nil =>
    intro _
    exact List.pairwise_singleton R a
  | cons b bs ih =>
    intro hl
    rcases List.pairwise_cons.mp hl with ⟨hb, hbs⟩
    simp only [insert_stable]
    split
    · rename_i hlt
      refine List.pairwise_cons.mpr ⟨?_, ih hbs⟩
      intro x hx
      rcases mem_insert_stable hx with hxa | hx
      · rw [hxa]
        exact hR1 b a hlt
      · exact hb x hx
    · rename_i hnlt
      have hlt2 : lt b a = false := by
        cases h : lt b a
        · rfl
        · exact absurd h hnlt
      refine List.pairwise_cons.mpr ⟨?_, hl⟩
      intro x hx
      rcases List.mem_cons.mp hx with hxb | hx
      · rw [hxb]
        exact hR2 a b hlt2
      · exact htrans a b x (hR2 a b hlt2) (hb x hx)

theorem stable_sort_pairwise {α : Type} (lt : α → α → Bool) (R : α → α → Prop)
    (hR1 : ∀ a b, lt a b = true → R a b)
    (hR2 : ∀ a b, lt b a = false → R a b)
    (htrans : ∀ a b c, R a b → R b c → R a c)
    (l : List α) : (stable_sort lt l).Pairwise R := by
  induction l with
  | nil => exact List.Pairwise.nil
  | cons x xs ih => exact insert_stable_pairwise lt R hR1 hR2 htrans x _ ih

theorem insert_stable_filter_pos {α : Type} (lt : α → α → Bool) (p : α → Bool) (a : α)
    (l : List α) (ha : p a = true)
    (hpass : ∀ b ∈ l, lt b a = true → p b = false) :
    (insert_stable lt a l).filter p = a :: l.filter p := by
  induction l with
  | nil => simp [insert_stable, List.filter_cons, ha]
  | cons b bs ih =>
    simp only [insert_stable]
    split
    · rename_i hlt
      have hpb : p b = false := hpass b (List.mem_cons_self b bs) hlt
      have ih2 := ih (fun c hc hlt2 => hpass c (List.mem_cons_of_mem b hc) hlt2)
      simp [List.filter_cons, hpb, ih2]
    · simp [List.filter_cons, ha]

theorem insert_stable_filter_neg {α : Type} (lt : α → α → Bool) (p : α → Bool) (a : α)
    (l : List α) (ha : p a = false) :
    (insert_stable lt a l).filter p = l.filter p := by
  induction l with
  | nil => simp [insert_stable, List.filter_cons, ha]
  | cons b bs ih =>
    simp only [insert_stable]
    split
    · simp [List.filter_cons, ih]
    · simp [List.filter_cons, ha]

theorem stable_sort_filter {α : Type} (lt : α → α → Bool) (p : α → Bool)
    (hcomp : ∀ a b, p a = true → p b = true → lt a b = false) (l : List α) :
    (stable_sort lt l).filter p = l.filter p := by
  induction l with
  | nil => rfl
  | cons x xs ih =>
    show (insert_stable lt x (stable_sort lt xs)).filter p = (x :: xs).filter p
    by_cases hx : p x = true
    · have hpass : ∀ b ∈ stable_sort lt xs, lt b x = true → p b = false := by
        intro b hb hlt
        cases hpb : p b
        · rfl
        · exact absurd hlt (by rw [hcomp b x hpb hx]; exact Bool.false_ne_true)
      rw [insert_stable_filter_pos lt p x _ hx hpass, ih]
      simp [List.filter_cons, hx]
    · have hx2 : p x = false := by
        cases h : p x
        · rfl
        · exact absurd h hx
      rw [insert_stable_filter_neg lt p x _ hx2, ih]
      simp [List.filter_cons, hx2]

theorem run_plugins_no_write_s (ps : List Single.SPlugin) (ph : Phase) (s : Single.SState)
    (e : PEvent) (hc : s.current_drag_hook_cancelled = false)
    (hps : ∀ q ∈ ps, ∀ (hq : Single.SHook), q.hookOf ph = some hq →
      ∀ c ev, (hq c ev).proposeCall = none ∧ (hq c ev).retFalse = false
        ∧ (hq c ev).cancelCalled = false) :
    (Single.run_plugins ps ph s e).1 = true
    ∧ (Single.run_plugins ps ph s e).2.proposals = s.proposals := by
  induction ps generalizing s with
  | nil => exact ⟨rfl, rfl⟩
  | cons p rest ih =>
    rcases hp : p.hookOf ph with _ | h
    · simpa only [Single.run_plugins, hp] using
        ih s hc (fun q hq => hps q (List.mem_cons_of_mem p hq))
    · simp only [Single.run_plugins, hp]
      obtain ⟨hw, hrf, hcc⟩ := hps p (List.mem_cons_self p rest) h hp (Single.s_ctx s) e
      rw [if_neg (by rw [hrf]; exact Bool.false_ne_true)]
      have hfalse : (Single.s_apply
          { s with hook_trace := s.hook_trace ++ [(p.name, p.priority, ph)] }
            (h (Single.s_ctx s) e)).current_drag_hook_cancelled = false := by
        show (s.current_drag_hook_cancelled || (h (Single.s_ctx s) e).cancelCalled) = false
        rw [hc, hcc]
        rfl
      rw [if_neg (by rw [hfalse]; exact Bool.false_ne_true)]
      obtain ⟨h1, h2⟩ := ih _ hfalse (fun q hq => hps q (List.mem_cons_of_mem p hq))
      refine ⟨h1, ?_⟩
      rw [h2]
      show (h (Single.s_ctx s) e).proposeCall.getD s.proposals = s.proposals
      rw [hw]
      rfl

theorem run_plugins_last_writer_s (front : List Single.SPlugin) (p : Single.SPlugin)
    (back : List Single.SPlugin) (ph : Phase) (h : Single.SHook)
    (v : Option Int × Option Int) (s : Single.SState) (e : PEvent)
    (hc : s.current_drag_hook_cancelled = false)
    (hfront : ∀ q ∈ front, ∀ (hq : Single.SHook), q.hookOf ph = some hq →
      ∀ c ev, (hq c ev).retFalse = false ∧ (hq c ev).cancelCalled = false)
    (hp : p.hookOf ph = some h)
    (hw : ∀ c ev, (h c ev).proposeCall = some v ∧ (h c ev).retFalse = false
      ∧ (h c ev).cancelCalled = false)
    (hback : ∀ q ∈ back, ∀ (hq : Single.SHook), q.hookOf ph = some hq →
      ∀ c ev, (hq c ev).proposeCall = none ∧ (hq c ev).retFalse = false
        ∧ (hq c ev).cancelCalled = false) :
    (Single.run_plugins (front ++ p :: back) ph s e).1 = true
    ∧ (Single.run_plugins (front ++ p :: back) ph s e).2.proposals = v := by
  induction front generalizing s with
  | nil =>
    simp only [List.nil_append, Single.run_plugins, hp]
    obtain ⟨hw1, hrf, hcc⟩ := hw (Single.s_ctx s) e
    rw [if_neg (by rw [hrf]; exact Bool.false_ne_true)]
    have hfalse : (Single.s_apply
        { s with hook_trace := s.hook_trace ++ [(p.name, p.priority, ph)] }
          (h (Single.s_ctx s) e)).current_drag_hook_cancelled = false := by
      show (s.current_drag_hook_cancelled || (h (Single.s_ctx s) e).cancelCalled) = false
      rw [hc, hcc]
      rfl
    rw [if_neg (by rw [hfalse]; exact Bool.false_ne_true)]
    obtain ⟨h1, h2⟩ := run_plugins_no_write_s back ph _ e hfalse hback
    refine ⟨h1, ?_⟩
    rw [h2]
    show (h (Single.s_ctx s) e).proposeCall.getD s.proposals = v
    rw [hw1]
    rfl
  | cons q front ih =>
    rcases hq : q.hookOf ph with _ | hqh
    · simpa only [List.cons_append, Single.run_plugins, hq, List.append_eq] using
        ih s hc (fun r hr => hfront r (List.mem_cons_of_mem q hr))
    · simp only [List.cons_append, Single.run_plugins, hq, List.append_eq]
      obtain ⟨hrf, hcc⟩ :=
        hfront q (List.mem_cons_self q front) hqh hq (Single.s_ctx s) e
      rw [if_neg (by rw [hrf]; exact Bool.false_ne_true)]
      have hfalse : (Single.s_apply
          { s with hook_trace := s.hook_trace ++ [(q.name, q.priority, ph)] }
            (hqh (Single.s_ctx s) e)).current_drag_hook_cancelled = false := by
        show (s.current_drag_hook_cancelled || (hqh (Single.s_ctx s) e).cancelCalled) = false
        rw [hc, hcc]
        rfl
      rw [if_neg (by rw [hfalse]; exact Bool.false_ne_true)]
      exact ih _ hfalse (fun r hr => hfront r (List.mem_cons_of_mem q hr))

theorem run_go_no_write_d (ps : List Delegated.DPlugin) (ph : Phase) (s : Delegated.DState)
    (e : PEvent) (hc : s.current_drag_hook_cancelled = false)
    (hps : ∀ q ∈ ps, ∀ (hq : Delegated.DHook), q.hookOf ph = some hq →
      ∀ c ev, ∃ o, hq c ev = Except.ok o ∧ o.proposeCall = none ∧ o.retFalse = false
        ∧ o.cancelCalled = false) :
    (Delegated.run_plugins_go ps ph s e).1 = true
    ∧ (Delegated.run_plugins_go ps ph s e).2.proposed = s.proposed := by
  induction ps generalizing s with
  | nil => exact ⟨rfl, rfl⟩
  | cons p rest ih =>
    rcases hp : p.hookOf ph with _ | h
    · simpa only [Delegated.run_plugins_go, hp] using
        ih s hc (fun q hq => hps q (List.mem_cons_of_mem p hq))
    · simp only [Delegated.run_plugins_go, hp]
      obtain ⟨o, ho, hw, hrf, hcc⟩ :=
        hps p (List.mem_cons_self p rest) h hp (Delegated.d_ctx s) e
      rw [if_neg (by rw [hc]; exact Bool.false_ne_true)]
      split
      · rename_i err heq
        rw [ho] at heq
        simp at heq
      · rename_i o2 heq
        rw [ho] at heq
        injection heq with h2
        subst h2
        rw [if_neg (by rw [hrf]; exact Bool.false_ne_true)]
        have hfalse : (Delegated.d_apply
            { s with hook_trace := s.hook_trace ++ [(p.name, p.priority, ph)] }
              o).current_drag_hook_cancelled = false := by
          show (s.current_drag_hook_cancelled || o.cancelCalled) = false
          rw [hc, hcc]
          rfl
        obtain ⟨h1, h2⟩ := ih _ hfalse (fun q hq => hps q (List.mem_cons_of_mem p hq))
        refine ⟨h1, ?_⟩
        rw [h2]
        show o.proposeCall.getD s.proposed = s.proposed
        rw [hw]
        rfl

theorem run_go_last_writer_d (front : List Delegated.DPlugin) (p : Delegated.DPlugin)
    (back : List Delegated.DPlugin) (ph : Phase) (h : Delegated.DHook)
    (v : Option Int × Option Int) (s : Delegated.DState) (e : PEvent)
    (hc : s.current_drag_hook_cancelled = false)
    (hfront : ∀ q ∈ front, ∀ (hq : Delegated.DHook), q.hookOf ph = some hq →
      ∀ c ev, ∃ o, hq c ev = Except.ok o ∧ o.retFalse = false ∧ o.cancelCalled = false)
    (hp : p.hookOf ph = some h)
    (hw : ∀ c ev, ∃ o, h c ev = Except.ok o ∧ o.proposeCall = some v ∧ o.retFalse = false
      ∧ o.cancelCalled = false)
    (hback : ∀ q ∈ back, ∀ (hq : Delegated.DHook), q.hookOf ph = some hq →
      ∀ c ev, ∃ o, hq c ev = Except.ok o ∧ o.proposeCall = none ∧ o.retFalse = false
        ∧ o.cancelCalled = false) :
    (Delegated.run_plugins_go (front ++ p :: back) ph s e).1 = true
    ∧ (Delegated.run_plugins_go (front ++ p :: back) ph s e).2.proposed = v := by
  induction front generalizing s with
  | nil =>
    simp only [List.nil_append, Delegated.run_plugins_go, hp]
    obtain ⟨o, ho, hw1, hrf, hcc⟩ := hw (Delegated.d_ctx s) e
    rw [if_neg (by rw [hc]; exact Bool.false_ne_true)]
    split
    · rename_i err heq
      rw [ho] at heq
      simp at heq
    · rename_i o2 heq
      rw [ho] at heq
      injection heq with h2
      subst h2
      rw [if_neg (by rw [hrf]; exact Bool.false_ne_true)]
      have hfalse : (Delegated.d_apply
          { s with hook_trace := s.hook_trace ++ [(p.name, p.priority, ph)] }
            o).current_drag_hook_cancelled = false := by
        show (s.current_drag_hook_cancelled || o.cancelCalled) = false
        rw [hc, hcc]
        rfl
      obtain ⟨h1, h2⟩ := run_go_no_write_d back ph _ e hfalse hback
      refine ⟨h1, ?_⟩
      rw [h2]
      show o.proposeCall.getD s.proposed = v
      rw [hw1]
      rfl
  | cons q front ih =>
    rcases hq : q.hookOf ph with _ | hqh
    · simpa only [List.cons_append, Delegated.run_plugins_go, hq, List.append_eq] using
        ih s hc (fun r hr => hfront r (List.mem_cons_of_mem q hr))
    · simp only [List.cons_append, Delegated.run_plugins_go, hq, List.append_eq]
      obtain ⟨o, ho, hrf, hcc⟩ :=
        hfront q (List.mem_cons_self q front) hqh hq (Delegated.d_ctx s) e
      rw [if_neg (by rw [hc]; exact Bool.false_ne_true)]
      split
      · rename_i err heq
        rw [ho] at heq
        simp at heq
      · rename_i o2 heq
        rw [ho] at heq
        injection heq with h2
        subst h2
        rw [if_neg (by rw [hrf]; exact Bool.false_ne_true)]
        have hfalse : (Delegated.d_apply
            { s with hook_trace := s.hook_trace ++ [(q.name, q.priority, ph)] }
              o).current_drag_hook_cancelled = false := by
          show (s.current_drag_hook_cancelled || o.cancelCalled) = false
          rw [hc, hcc]
          rfl
        exact ih _ hfalse (fun r hr => hfront r (List.mem_cons_of_mem q hr))

/-- C3 counterexample: the single-instance engine runs plugins in ascending
priority order, not descending.  With plugins `"a"` (priority 1) and `"b"`
(priority 2), `ordered_plugins` puts `"a"` first and the `drag` dispatch
invokes `"a"` before the strictly higher-priority `"b"`. -/
theorem c3_single_ascending_cex :
    ((Single.ordered_plugins [writerS "a" 1 10, writerS "b" 2 20]).map Single.SPlugin.name
      = ["a", "b"])
    ∧ (Single.run_plugins (Single.ordered_plugins [writerS "a" 1 10, writerS "b" 2 20])
        Phase.drag {} { clientX := 0, clientY := 0 }).2.hook_trace
      = [("a", 1, Phase.drag), ("b", 2, Phase.drag)] := by
  exact ⟨by decide, by decide⟩

/-- C3 amended: the delegated engine's `initialize_plugins` sorts the
deduplicated plugins in descending priority order, but the single-instance
engine's `ordered_plugins` sorts in ascending priority order; in both
engines the sort is stable, so plugins of equal priority keep registration
order (the sublist at any fixed priority equals the registration-order
sublist); and after a chain in which no hook vetoes or cancels, `proposed`
equals the value written by the last plugin that wrote it, in either
engine. -/
theorem c3_order_amended :
    (∀ l : List Single.SPlugin,
      (Single.ordered_plugins l).Pairwise (fun a b => a.priority ≤ b.priority))
    ∧ (∀ a b : List Delegated.DPlugin,
      (Delegated.init_plugins a b).Pairwise (fun p q => q.priority ≤ p.priority))
    ∧ (∀ (l : List Single.SPlugin) (k : Int),
      (Single.ordered_plugins l).filter (fun p => p.priority == k)
        = (Single.plugin_map l).filter (fun p => p.priority == k))
    ∧ (∀ (a b : List Delegated.DPlugin) (k : Int),
      (Delegated.init_plugins a b).filter (fun p => p.priority == k)
        = ((a ++ b).foldl (register_plugin Delegated.DPlugin.name
            Delegated.DPlugin.priority (fun x y => y ≤ x)) []).filter
            (fun p => p.priority == k))
    ∧ (∀ (front : List Single.SPlugin) (p : Single.SPlugin) (back : List Single.SPlugin)
        (ph : Phase) (h : Single.SHook) (v : Option Int × Option Int)
        (s : Single.SState) (e : PEvent),
      s.current_drag_hook_cancelled = false →
      (∀ q ∈ front, ∀ (hq : Single.SHook), q.hookOf ph = some hq →
        ∀ c ev, (hq c ev).retFalse = false ∧ (hq c ev).cancelCalled = false) →
      p.hookOf ph = some h →
      (∀ c ev, (h c ev).proposeCall = some v ∧ (h c ev).retFalse = false
        ∧ (h c ev).cancelCalled = false) →
      (∀ q ∈ back, ∀ (hq : Single.SHook), q.hookOf ph = some hq →
        ∀ c ev, (hq c ev).proposeCall = none ∧ (hq c ev).retFalse = false
          ∧ (hq c ev).cancelCalled = false) →
      (Single.run_plugins (front ++ p :: back) ph s e).1 = true
      ∧ (Single.run_plugins (front ++ p :: back) ph s e).2.proposals = v)
    ∧ (∀ (front : List Delegated.DPlugin) (p : Delegated.DPlugin)
        (back : List Delegated.DPlugin) (ph : Phase) (h : Delegated.DHook)
        (v : Option Int × Option Int) (s : Delegated.DState) (e : PEvent),
      s.current_drag_hook_cancelled = false →
      (∀ q ∈ front, ∀ (hq : Delegated.DHook), q.hookOf ph = some hq →
        ∀ c ev, ∃ o, hq c ev = Except.ok o ∧ o.retFalse = false ∧ o.cancelCalled = false) →
      p.hookOf ph = some h →
      (∀ c ev, ∃ o, h c ev = Except.ok o ∧ o.proposeCall = some v ∧ o.retFalse = false
        ∧ o.cancelCalled = false) →
      (∀ q ∈ back, ∀ (hq : Delegated.DHook), q.hookOf ph = some hq →
        ∀ c ev, ∃ o, hq c ev = Except.ok o ∧ o.proposeCall = none ∧ o.retFalse = false
          ∧ o.cancelCalled = false) →
      (Delegated.run_plugins (front ++ p :: back) ph s e).1 = true
      ∧ (Delegated.run_plugins (front ++ p :: back) ph s e).2.proposed = v) := by
  refine ⟨?_, ?_, ?_, ?_, ?_, ?_⟩
  · intro l
    exact stable_sort_pairwise (fun x y => decide (Single.SPlugin.priority x
        < Single.SPlugin.priority y))
      (fun x y => Single.SPlugin.priority x ≤ Single.SPlugin.priority y)
      (fun x y h => le_of_lt (of_decide_eq_true h))
      (fun x y h => le_of_not_lt (of_decide_eq_false h))
      (fun x y z h1 h2 => le_trans h1 h2) _
  · intro a b
    exact stable_sort_pairwise (fun x y => decide (Delegated.DPlugin.priority y
        < Delegated.DPlugin.priority x))
      (fun p q => Delegated.DPlugin.priority q ≤ Delegated.DPlugin.priority p)
      (fun p q h => le_of_lt (of_decide_eq_true h))
      (fun p q h => le_of_not_lt (of_decide_eq_false h))
      (fun p q r h1 h2 => le_trans h2 h1) _
  · intro l k
    exact stable_sort_filter _ _
      (fun a b ha hb =>
        decide_eq_false (by rw [eq_of_beq ha, eq_of_beq hb]; exact lt_irrefl k)) _
  · intro a b k
    exact stable_sort_filter _ _
      (fun p q hp hq =>
        decide_eq_false (by rw [eq_of_beq hp, eq_of_beq hq]; exact lt_irrefl k)) _
  · intro front p back ph h v s e hc hfront hp hw hback
    exact run_plugins_last_writer_s front p back ph h v s e hc hfront hp hw hback
  · intro front p back ph h v s e hc hfront hp hw hback
    exact run_go_last_writer_d front p back ph h v
      { s with dragstart_prevented := false } e hc hfront hp hw hback

/-- Witness for C3's amended theorem: concrete sorted lists and a concrete
three-plugin chain per engine whose middle plugin is the last writer. -/
theorem c3_order_amended_witness :
    ((Single.ordered_plugins [writerS "a" 1 1, writerS "b" 2 2]).Pairwise
        (fun a b => Single.SPlugin.priority a ≤ Single.SPlugin.priority b)
      ∧ (Delegated.init_plugins [dWriter "a" 1 1, dWriter "b" 2 2] []).Pairwise
        (fun p q => Delegated.DPlugin.priority q ≤ Delegated.DPlugin.priority p))
    ∧ ((Single.ordered_plugins [writerS "a" 0 1, writerS "b" 0 2]).filter
          (fun p => Single.SPlugin.priority p == 0)
        = (Single.plugin_map [writerS "a" 0 1, writerS "b" 0 2]).filter
          (fun p => Single.SPlugin.priority p == 0))
    ∧ ((Single.run_plugins ([writerS "a" 1 9] ++ writerS "b" 2 7 :: [sEffect "c" 3])
          Phase.drag sDrag ev0).1 = true
      ∧ (Single.run_plugins ([writerS "a" 1 9] ++ writerS "b" 2 7 :: [sEffect "c" 3])
          Phase.drag sDrag ev0).2.proposals = (some 7, some 7))
    ∧ ((Delegated.run_plugins ([dWriter "a" 1 9] ++ dWriter "b" 2 7 :: [dEffect "c" 3])
          Phase.drag dDrag ev0).1 = true
      ∧ (Delegated.run_plugins ([dWriter "a" 1 9] ++ dWriter "b" 2 7 :: [dEffect "c" 3])
          Phase.drag dDrag ev0).2.proposed = (some 7, some 7)) :=
  ⟨⟨c3_order_amended.1 [writerS "a" 1 1, writerS "b" 2 2],
    c3_order_amended.2.1 [dWriter "a" 1 1, dWriter "b" 2 2] []⟩,
   c3_order_amended.2.2.1 [writerS "a" 0 1, writerS "b" 0 2] 0,
   c3_order_amended.2.2.2.2.1 [writerS "a" 1 9] (writerS "b" 2 7) [sEffect "c" 3]
     Phase.drag (fun _ _ => { proposeCall := some (some 7, some 7) })
     (some 7, some 7) sDrag ev0 rfl
     (by intro q hqmem hq hqeq c ev
         have hq1 : q = writerS "a" 1 9 := by simpa using hqmem
         subst hq1
         have hqeq2 : some (fun _ _ =>
             ({ proposeCall := some (some 9, some 9) } : HookOutcome)) = some hq := hqeq
         injection hqeq2 with h2
         exact ⟨by rw [← h2], by rw [← h2]⟩)
     rfl (fun _ _ => ⟨rfl, rfl, rfl⟩)
     (by intro q hqmem hq hqeq c ev
         have hq1 : q = sEffect "c" 3 := by simpa using hqmem
         subst hq1
         have hqeq2 : some (fun _ _ =>
             ({ effectCalls := [3] } : HookOutcome)) = some hq := hqeq
         injection hqeq2 with h2
         exact ⟨by rw [← h2], by rw [← h2], by rw [← h2]⟩),
   c3_order_amended.2.2.2.2.2 [dWriter "a" 1 9] (dWriter "b" 2 7) [dEffect "c" 3]
     Phase.drag (fun _ _ => Except.ok { proposeCall := some (some 7, some 7) })
     (some 7, some 7) dDrag ev0 rfl
     (by intro q hqmem hq hqeq c ev
         have hq1 : q = dWriter "a" 1 9 := by simpa using hqmem
         subst hq1
         have hqeq2 : some (fun _ _ => (Except.ok
             ({ proposeCall := some (some 9, some 9) } : HookOutcome)
               : Except Nat HookOutcome)) = some hq := hqeq
         injection hqeq2 with h2
         exact ⟨{ proposeCall := some (some 9, some 9) }, by rw [← h2], rfl, rfl⟩)
     rfl (fun _ _ => ⟨{ proposeCall := some (some 7, some 7) }, rfl, rfl, rfl, rfl⟩)
     (by intro q hqmem hq hqeq c ev
         have hq1 : q = dEffect "c" 3 := by simpa using hqmem
         subst hq1
         have hqeq2 : some (fun _ _ => (Except.ok
             ({ effectCalls := [3] } : HookOutcome)
               : Except Nat HookOutcome)) = some hq := hqeq
         injection hqeq2 with h2
         exact ⟨{ effectCalls := [3] }, by rw [← h2], rfl, rfl, rfl⟩)⟩

/-- C4 counterexample: in the single-instance engine, with two plugins named
`"p"` of priorities 1 and 2, the setup loop iterates the raw registration
list, so the priority-1 instance does receive `setup` (first), before the
priority-2 instance — contradicting "the priority-1 instance never receives
`setup`". -/
theorem c4_duplicate_setup_cex :
    (Single.attach_setup [setupS "p" 1, setupS "p" 2] {}).hook_trace
      = [("p", 1, Phase.setup), ("p", 2, Phase.setup)] := by
  decide

/-- C4 amended: in the delegated engine a duplicate registration with
equal-or-higher priority replaces the earlier plugin of the same name, and
only the survivor's hooks — `setup` included — ever run; in the
single-instance engine a duplicate replaces the earlier one only with
strictly higher priority (an equal-priority duplicate loses to the first
registration), only the survivor's pointer-phase hooks run, but the setup
loop iterates the raw registration list, so every registered instance —
the replaced priority-1 duplicate included — receives `setup`. -/
theorem c4_dedup_amended :
    ((Delegated.init_plugins [dSetup "p" 1, dSetup "p" 2] []).map
        (fun p => (Delegated.DPlugin.name p, Delegated.DPlugin.priority p)) = [("p", 2)])
    ∧ (Delegated.attach_setup (Delegated.init_plugins [dSetup "p" 1, dSetup "p" 2] [])
        dInit).hook_trace = [("p", 2, Phase.setup)]
    ∧ (Delegated.run_plugins (Delegated.init_plugins [dWriter "p" 0 1, dWriter "p" 0 2] [])
        Phase.drag dDrag ev0).2.proposed = (some 2, some 2)
    ∧ ((Single.ordered_plugins [setupS "p" 1, setupS "p" 2]).map
        (fun p => (Single.SPlugin.name p, Single.SPlugin.priority p)) = [("p", 2)])
    ∧ (Single.run_plugins (Single.ordered_plugins [writerS "p" 0 1, writerS "p" 0 2])
        Phase.drag sDrag ev0).2.proposals = (some 1, some 1)
    ∧ (Single.attach_setup [setupS "p" 1, setupS "p" 2] {}).hook_trace
        = [("p", 1, Phase.setup), ("p", 2, Phase.setup)] :=
  ⟨by decide, by decide, by decide, by decide, by decide, by decide⟩

theorem try_start_drag_trace (ps : List Single.SPlugin) (e : PEvent) (s : Single.SState) :
    ∃ t, (Single.try_start_drag ps e s).hook_trace = s.hook_trace ++ t
      ∧ ∀ x ∈ t, x.2.2 = Phase.dragStart := by
  simp only [Single.try_start_drag]
  split
  · obtain ⟨t, ht, hall⟩ :=
      run_plugins_s_trace ps Phase.dragStart { s with delta := (0, 0) } e
    split
    · exact ⟨t, ht, hall⟩
    · exact ⟨t, ht, hall⟩
  · exact ⟨[], (List.append_nil _).symm, by simp⟩

theorem move_time_part_trace (ps : List Single.SPlugin) (th : Single.Threshold) (e : PEvent)
    (s : Single.SState) :
    ∃ t, (Single.move_time_part ps th e s).hook_trace = s.hook_trace ++ t
      ∧ ∀ x ∈ t, x.2.2 = Phase.dragStart := by
  simp only [Single.move_time_part]
  split
  · split
    · exact try_start_drag_trace ps e { s with meets_time_threshold := true }
    · exact ⟨[], (List.append_nil _).symm, by simp⟩
  · exact ⟨[], (List.append_nil _).symm, by simp⟩

theorem move_dist_part_trace (ps : List Single.SPlugin) (th : Single.Threshold) (e : PEvent)
    (sa : Single.SState) :
    ∃ t, (Single.move_dist_part ps th e sa).hook_trace = sa.hook_trace ++ t
      ∧ ∀ x ∈ t, x.2.2 = Phase.dragStart := by
  simp only [Single.move_dist_part]
  split
  · split
    · exact try_start_drag_trace ps e { sa with meets_distance_threshold := true }
    · exact ⟨[], (List.append_nil _).symm, by simp⟩
  · exact ⟨[], (List.append_nil _).symm, by simp⟩

theorem move_thresholds_trace (ps : List Single.SPlugin) (th : Single.Threshold)
    (e : PEvent) (s : Single.SState) :
    ∃ t, (Single.move_thresholds ps th e s).hook_trace = s.hook_trace ++ t
      ∧ ∀ x ∈ t, x.2.2 = Phase.dragStart := by
  obtain ⟨ta, hta, hallA⟩ := move_time_part_trace ps th e s
  obtain ⟨tb, htb, hallB⟩ := move_dist_part_trace ps th e (Single.move_time_part ps th e s)
  refine ⟨ta ++ tb, ?_, ?_⟩
  · show (Single.move_dist_part ps th e (Single.move_time_part ps th e s)).hook_trace
      = s.hook_trace ++ (ta ++ tb)
    rw [htb, hta, List.append_assoc]
  · intro x hx
    rcases List.mem_append.mp hx with hx | hx
    · exact hallA x hx
    · exact hallB x hx

theorem move_core_trace (ps : List Delegated.DPlugin) (e : PEvent) (sm : Delegated.DState) :
    ∃ t, (Delegated.move_core ps e sm).hook_trace = sm.hook_trace ++ t
      ∧ ∀ x ∈ t, x.2.2 = Phase.drag := by
  simp only [Delegated.move_core]
  obtain ⟨t, ht, hall⟩ := run_plugins_d_trace ps Phase.drag
    { sm with delta := Delegated.raw_delta e sm,
              proposed := (some (Delegated.raw_delta e sm).1,
                           some (Delegated.raw_delta e sm).2) } e
  split
  · exact ⟨t, ht, hall⟩
  · exact ⟨t, ht, hall⟩

theorem hpm_start_trace (ps : List Delegated.DPlugin) (e : PEvent) (s1 : Delegated.DState) :
    ∃ t1 t2 t3, (Delegated.hpm_start ps e s1).hook_trace = s1.hook_trace ++ t1 ++ t2 ++ t3
      ∧ (∀ x ∈ t1, x.2.2 = Phase.drag)
      ∧ (∀ x ∈ t2, x.2.2 = Phase.dragStart)
      ∧ (∀ x ∈ t3, x.2.2 = Phase.drag) := by
  simp only [Delegated.hpm_start]
  obtain ⟨t1, ht1, hall1⟩ := run_plugins_d_trace ps Phase.drag s1 e
  split
  · obtain ⟨t2, ht2, hall2⟩ := run_plugins_d_trace ps Phase.dragStart
      (Delegated.run_plugins ps Phase.drag s1 e).2 e
    split
    · refine ⟨t1, t2, [], ?_, hall1, hall2, by simp⟩
      exact ht2.trans (by rw [ht1]; simp)
    · obtain ⟨t3, ht3, hall3⟩ := move_core_trace ps e
        { Delegated.flush_effects (Delegated.run_plugins ps Phase.dragStart
            (Delegated.run_plugins ps Phase.drag s1 e).2 e).2 with isDragging := true }
      refine ⟨t1, t2, t3, ?_, hall1, hall2, hall3⟩
      refine ht3.trans ?_
      show (Delegated.run_plugins ps Phase.dragStart
          (Delegated.run_plugins ps Phase.drag s1 e).2 e).2.hook_trace ++ t3
        = s1.hook_trace ++ t1 ++ t2 ++ t3
      rw [ht2, ht1]
  · refine ⟨t1, [], [], ?_, hall1, by simp, by simp⟩
    exact ht1.trans (by simp)

/-- C5 amended: the single-instance engine preserves the lifecycle order
within each pointer-move: while not yet dragging, the move's hook
invocations decompose into dragStart-phase invocations (from
`try_start_drag`) followed by drag-phase invocations, and the drag-phase
segment is nonempty only once the move has set the interaction dragging;
the delegated engine instead runs a preliminary drag-phase chain before the
dragStart chain on every move processed before dragging starts, so there a
plugin's drag hook is invoked before the interaction's dragStart chain. -/
theorem c5_lifecycle_amended :
    (∀ (ps : List Single.SPlugin) (th : Single.Threshold) (e : PEvent) (s : Single.SState),
      s.is_dragging = false →
      ∃ t1 t2, (Single.pointermove ps th e s).hook_trace = s.hook_trace ++ t1 ++ t2
        ∧ (∀ x ∈ t1, x.2.2 = Phase.dragStart)
        ∧ (∀ x ∈ t2, x.2.2 = Phase.drag)
        ∧ (t2 ≠ [] → (Single.pointermove ps th e s).is_dragging = true))
    ∧ (∀ (ps : List Delegated.DPlugin) (e : PEvent) (s : Delegated.DState),
      s.active = true → s.isInteracting = true → s.isDragging = false →
      ∃ t1 t2 t3,
        (Delegated.handle_pointer_move ps e s).hook_trace
          = s.hook_trace ++ t1 ++ t2 ++ t3
        ∧ (∀ x ∈ t1, x.2.2 = Phase.drag)
        ∧ (∀ x ∈ t2, x.2.2 = Phase.dragStart)
        ∧ (∀ x ∈ t3, x.2.2 = Phase.drag)) := by
  constructor
  · intro ps th e s hd
    simp only [Single.pointermove]
    split
    · exact ⟨[], [], by simp, by simp, by simp, fun h => absurd rfl h⟩
    · rw [if_pos (by rw [hd]; rfl)]
      simp only [Single.move_commit]
      obtain ⟨t1, ht1, hall1⟩ := move_thresholds_trace ps th e s
      by_cases hd1 : (Single.move_thresholds ps th e s).is_dragging = true
      · rw [if_neg (by rw [hd1]; exact Bool.false_ne_true)]
        obtain ⟨t2, ht2, hall2⟩ := run_plugins_s_trace ps Phase.drag
          { Single.move_thresholds ps th e s with
            delta := Single.raw_delta e (Single.move_thresholds ps th e s),
            proposals := (some (Single.raw_delta e (Single.move_thresholds ps th e s)).1,
                          some (Single.raw_delta e (Single.move_thresholds ps th e s)).2) } e
        have hfr : (Single.move_chain ps e (Single.move_thresholds ps th e s)).2.is_dragging
            = true :=
          ((run_plugins_s_frame ps Phase.drag
            { Single.move_thresholds ps th e s with
              delta := Single.raw_delta e (Single.move_thresholds ps th e s),
              proposals := (some (Single.raw_delta e (Single.move_thresholds ps th e s)).1,
                            some (Single.raw_delta e
                              (Single.move_thresholds ps th e s)).2) }
            e).2.2.2.2.2.1).trans hd1
        split
        · refine ⟨t1, t2, ?_, hall1, hall2, fun _ => ?_⟩
          · refine ht2.trans ?_
            show (Single.move_thresholds ps th e s).hook_trace ++ t2
              = s.hook_trace ++ t1 ++ t2
            rw [ht1]
          · exact hfr
        · refine ⟨t1, t2, ?_, hall1, hall2, fun _ => ?_⟩
          · refine ht2.trans ?_
            show (Single.move_thresholds ps th e s).hook_trace ++ t2
              = s.hook_trace ++ t1 ++ t2
            rw [ht1]
          · exact hfr
      · have hd1f : (Single.move_thresholds ps th e s).is_dragging = false := by
          cases h : (Single.move_thresholds ps th e s).is_dragging
          · rfl
          · exact absurd h hd1
        rw [if_pos (by rw [hd1f]; rfl)]
        refine ⟨t1, [], ?_, hall1, by simp, fun h => absurd rfl h⟩
        rw [ht1]
        simp
  · intro ps e s ha hi hd
    simp only [Delegated.handle_pointer_move]
    rw [if_neg (by rw [ha]; exact Bool.false_ne_true)]
    rw [if_neg (by rw [hi]; exact Bool.false_ne_true)]
    rw [if_neg (show ¬(({ s with lastEvent := some e } : Delegated.DState).isDragging
        = true) by
      show ¬(s.isDragging = true)
      rw [hd]
      exact Bool.false_ne_true)]
    obtain ⟨t1, t2, t3, ht, hall1, hall2, hall3⟩ := hpm_start_trace ps e
      { ({ s with lastEvent := some e } : Delegated.DState) with
        dragstart_prevented := false }
    exact ⟨t1, t2, t3, ht, hall1, hall2, hall3⟩

/-- Witness for C5's amended theorem at concrete states: a plugin with
`drag` and `dragStart` hooks in each engine, processed while interacting
but not yet dragging. -/
theorem c5_lifecycle_amended_witness :
    (∃ t1 t2, (Single.pointermove [writerS "a" 1 5] {} ev0
          { is_interacting := true }).hook_trace
        = (Single.SState.hook_trace { is_interacting := true }) ++ t1 ++ t2
      ∧ (∀ x ∈ t1, x.2.2 = Phase.dragStart)
      ∧ (∀ x ∈ t2, x.2.2 = Phase.drag)
      ∧ (t2 ≠ [] → (Single.pointermove [writerS "a" 1 5] {} ev0
          { is_interacting := true }).is_dragging = true))
    ∧ (∃ t1 t2 t3, (Delegated.handle_pointer_move [dLifecycle "p"] ev0
          { active := true, isInteracting := true }).hook_trace
        = (Delegated.DState.hook_trace { active := true, isInteracting := true })
            ++ t1 ++ t2 ++ t3
      ∧ (∀ x ∈ t1, x.2.2 = Phase.drag)
      ∧ (∀ x ∈ t2, x.2.2 = Phase.dragStart)
      ∧ (∀ x ∈ t3, x.2.2 = Phase.drag)) :=
  ⟨c5_lifecycle_amended.1 [writerS "a" 1 5] {} ev0 { is_interacting := true } rfl,
   c5_lifecycle_amended.2 [dLifecycle "p"] ev0 { active := true, isInteracting := true }
     rfl rfl rfl⟩

/-- C5 counterexample: in the delegated engine, on the first qualifying
pointer-move of an interaction, a plugin's `drag` hook is invoked before the
`dragStart` chain has run: the invocation trace of `handle_pointer_move`
starts with a `drag`-phase entry and the `dragStart` entry only follows. -/
theorem c5_drag_before_dragstart_cex :
    (Delegated.handle_pointer_move [dLifecycle "p"] { clientX := 5, clientY := 5 }
        { active := true, isInteracting := true }).hook_trace
      = [("p", 0, Phase.drag), ("p", 0, Phase.dragStart), ("p", 0, Phase.drag)] := by
  decide

/-! Offset-preservation lemmas: everything in the single-instance engine
except the commit step of the `pointermove` listener leaves the committed
offsets untouched. -/

theorem try_start_drag_offsets (ps : List Single.SPlugin) (e : PEvent) (s : Single.SState) :
    (Single.try_start_drag ps e s).x_offset = s.x_offset
    ∧ (Single.try_start_drag ps e s).y_offset = s.y_offset := by
  obtain ⟨hx, hy, -⟩ := run_plugins_s_frame ps .dragStart { s with delta := (0, 0) } e
  simp only [Single.try_start_drag]
  split
  · split
    · exact ⟨hx, hy⟩
    · exact ⟨hx, hy⟩
  · exact ⟨rfl, rfl⟩

theorem move_time_part_offsets (ps : List Single.SPlugin) (th : Single.Threshold)
    (e : PEvent) (s : Single.SState) :
    (Single.move_time_part ps th e s).x_offset = s.x_offset
    ∧ (Single.move_time_part ps th e s).y_offset = s.y_offset := by
  simp only [Single.move_time_part]
  split
  · split
    · exact try_start_drag_offsets ps e { s with meets_time_threshold := true }
    · exact ⟨rfl, rfl⟩
  · exact ⟨rfl, rfl⟩

theorem move_dist_part_offsets (ps : List Single.SPlugin) (th : Single.Threshold)
    (e : PEvent) (sa : Single.SState) :
    (Single.move_dist_part ps th e sa).x_offset = sa.x_offset
    ∧ (Single.move_dist_part ps th e sa).y_offset = sa.y_offset := by
  simp only [Single.move_dist_part]
  split
  · split
    · exact try_start_drag_offsets ps e { sa with meets_distance_threshold := true }
    · exact ⟨rfl, rfl⟩
  · exact ⟨rfl, rfl⟩

theorem move_thresholds_offsets (ps : List Single.SPlugin) (th : Single.Threshold)
    (e : PEvent) (s : Single.SState) :
    (Single.move_thresholds ps th e s).x_offset = s.x_offset
    ∧ (Single.move_thresholds ps th e s).y_offset = s.y_offset := by
  obtain ⟨hax, hay⟩ := move_time_part_offsets ps th e s
  obtain ⟨hbx, hby⟩ := move_dist_part_offsets ps th e (Single.move_time_part ps th e s)
  exact ⟨hbx.trans hax, hby.trans hay⟩

theorem pointerdown_offsets (ps : List Single.SPlugin) (th : Single.Threshold)
    (inv : Int) (e : PEvent) (s : Single.SState) :
    (Single.pointerdown ps th inv e s).x_offset = s.x_offset
    ∧ (Single.pointerdown ps th inv e s).y_offset = s.y_offset := by
  obtain ⟨hx, hy, -⟩ := run_plugins_s_frame ps .shouldDrag s e
  simp only [Single.pointerdown]
  split
  · exact ⟨rfl, rfl⟩
  · split
    · exact ⟨hx, hy⟩
    · split
      · exact ⟨hx, hy⟩
      · split <;> split <;> split <;> exact ⟨hx, hy⟩

theorem pointerup_offsets (ps : List Single.SPlugin) (e : PEvent) (s : Single.SState) :
    (Single.pointerup ps e s).x_offset = s.x_offset
    ∧ (Single.pointerup ps e s).y_offset = s.y_offset := by
  obtain ⟨hx, hy, -⟩ := run_plugins_s_frame ps .dragEnd s e
  simp only [Single.pointerup]
  split
  · exact ⟨rfl, rfl⟩
  · split <;> split <;> exact ⟨hx, hy⟩

theorem pointermove_not_interacting (ps : List Single.SPlugin) (th : Single.Threshold)
    (e : PEvent) (s : Single.SState) (h : s.is_interacting = false) :
    Single.pointermove ps th e s = s := by
  simp [Single.pointermove, h]

/-! Evaluation of the `axis('x')` drag chain: the vertical proposal becomes
`null` on every move, so the commit step adds zero to the vertical offset. -/

theorem axis_x_commit_y (e : PEvent) (s : Single.SState) :
    (Single.move_commit [axis AxisValue.x] e s).y_offset = s.y_offset := by
  cases hd : s.is_dragging
  · simp [Single.move_commit, hd]
  · cases hc : s.current_drag_hook_cancelled
    · simp [Single.move_commit, Single.move_chain, Single.run_plugins, axis,
        Single.SPlugin.hookOf, Single.s_apply, Single.s_ctx, Single.flush_effects,
        Single.clear_effects, Single.fire_event, Single.raw_delta, hd, hc]
    · simp [Single.move_commit, Single.move_chain, Single.run_plugins, axis,
        Single.SPlugin.hookOf, Single.s_apply, Single.s_ctx, Single.flush_effects,
        Single.clear_effects, Single.fire_event, Single.raw_delta, hd, hc]

theorem axis_x_pointermove_y (th : Single.Threshold) (e : PEvent) (s : Single.SState) :
    (Single.pointermove [axis AxisValue.x] th e s).y_offset = s.y_offset := by
  simp only [Single.pointermove]
  split
  · rfl
  · split
    · exact (axis_x_commit_y e _).trans
        (move_thresholds_offsets [axis AxisValue.x] th e s).2
    · exact axis_x_commit_y e s

theorem axis_x_moves_y (th : Single.Threshold) (moves : List PEvent) (s : Single.SState) :
    (moves.foldl (fun st ev => Single.pointermove [axis AxisValue.x] th ev st) s).y_offset
      = s.y_offset := by
  induction moves generalizing s with
  | nil => rfl
  | cons m rest ih => exact (ih _).trans (axis_x_pointermove_y th m s)

theorem axis_none_pointerdown (th : Single.Threshold) (inv : Int) (e : PEvent)
    (s : Single.SState) (h : s.is_interacting = false) :
    (Single.pointerdown [axis AxisValue.none] th inv e s).is_interacting = false := by
  simp only [Single.pointerdown]
  split
  · exact h
  · simp [Single.run_plugins, axis, Single.SPlugin.hookOf, Single.s_apply, h]

/-- C8: with the `axis` plugin configured to `x`, the committed vertical
offset never changes across a whole interaction cycle — pointer-down, any
sequence of pointer-moves, pointer-up; the plugin's `drag` hook nulls the
proposed delta on the locked vertical axis on every move (and a null proposal
commits as zero); with the configuration `none` the `shouldDrag` hook vetoes,
so a pointer-down on an idle instance leaves it not interacting, and a
pointer-move on a non-interacting instance is a no-op. -/
theorem c8_axis_lock :
    (∀ (th : Single.Threshold) (inv : Int) (e0 eUp : PEvent) (moves : List PEvent)
        (s : Single.SState),
        (Single.pointerup [axis AxisValue.x] eUp
          (moves.foldl (fun st ev => Single.pointermove [axis AxisValue.x] th ev st)
            (Single.pointerdown [axis AxisValue.x] th inv e0 s))).y_offset = s.y_offset)
    ∧ (∀ (c : Single.SCtx) (ev : PEvent) (hk : Single.SHook),
        (axis AxisValue.x).hookOf Phase.drag = some hk →
        (hk c ev).proposeCall = some (c.proposed.1, none))
    ∧ (∀ (th : Single.Threshold) (inv : Int) (e : PEvent) (s : Single.SState),
        s.is_interacting = false →
        (Single.pointerdown [axis AxisValue.none] th inv e s).is_interacting = false)
    ∧ (∀ (ps : List Single.SPlugin) (th : Single.Threshold) (e : PEvent)
        (s : Single.SState),
        s.is_interacting = false → Single.pointermove ps th e s = s) := by
  refine ⟨?_, ?_, ?_, ?_⟩
  · intro th inv e0 eUp moves s
    exact ((pointerup_offsets [axis AxisValue.x] eUp _).2.trans
      (axis_x_moves_y th moves _)).trans
      (pointerdown_offsets [axis AxisValue.x] th inv e0 s).2
  · intro c ev hk hhk
    injection hhk with h1
    rw [← h1]
    simp
  · exact axis_none_pointerdown
  · exact pointermove_not_interacting

/-- Witness for C8 at concrete inputs: an `axis('none')` pointer-down on a
fresh instance leaves it idle, and a pointer-move on an idle instance is the
identity. -/
theorem c8_axis_lock_witness :
    (Single.pointerdown [axis AxisValue.none] {} 1 ev0 {}).is_interacting = false
    ∧ Single.pointermove [] {} ev0 {} = ({} : Single.SState) :=
  ⟨c8_axis_lock.2.2.1 {} 1 ev0 {} rfl, c8_axis_lock.2.2.2 [] {} ev0 {} rfl⟩

/-! The `grid` plugin: `calc` rounds up to the next multiple of the step,
a zero step locks the axis to zero, and the commit step preserves
divisibility of the committed offsets by the step sizes. -/

theorem calc_snap_dvd (v g : Int) : g ∣ calc_snap v g := by
  unfold calc_snap
  split
  · exact dvd_zero g
  · exact dvd_mul_left g _

theorem calc_snap_bounds (v g : Int) (hg : 0 < g) :
    v ≤ calc_snap v g ∧ calc_snap v g < v + g := by
  have hg0 : (g : ℚ) ≠ 0 := by exact_mod_cast hg.ne'
  have hgpos : (0 : ℚ) < g := by exact_mod_cast hg
  have h1 : (v : ℚ) ≤ (⌈(v : ℚ) / g⌉ : ℚ) * g := by
    calc (v : ℚ) = (v : ℚ) / g * g := (div_mul_cancel₀ _ hg0).symm
    _ ≤ (⌈(v : ℚ) / g⌉ : ℚ) * g :=
        mul_le_mul_of_nonneg_right (Int.le_ceil ((v : ℚ) / g)) hgpos.le
  have h2 : (⌈(v : ℚ) / g⌉ : ℚ) * g < v + g := by
    calc (⌈(v : ℚ) / g⌉ : ℚ) * g < ((v : ℚ) / g + 1) * g :=
        mul_lt_mul_of_pos_right (Int.ceil_lt_add_one ((v : ℚ) / g)) hgpos
    _ = v + g := by rw [add_mul, div_mul_cancel₀ _ hg0, one_mul]
  constructor
  · unfold calc_snap
    rw [if_neg hg.ne']
    exact_mod_cast h1
  · unfold calc_snap
    rw [if_neg hg.ne']
    exact_mod_cast h2

theorem snap_to_grid_dvd (gx gy : Int) (px py : Option Int) :
    gx ∣ (snap_to_grid (gx, gy) px py).1.getD 0
    ∧ gy ∣ (snap_to_grid (gx, gy) px py).2.getD 0 := by
  constructor
  · cases px with
    | none => simp [snap_to_grid]
    | some v =>
      by_cases hv : v = 0
      · simp [snap_to_grid, hv]
      · simp [snap_to_grid, hv, calc_snap_dvd]
  · cases py with
    | none => simp [snap_to_grid]
    | some v =>
      by_cases hv : v = 0
      · simp [snap_to_grid, hv]
      · simp [snap_to_grid, hv, calc_snap_dvd]

theorem snap_to_grid_zero_fst (gy : Int) (px py : Option Int) :
    (snap_to_grid (0, gy) px py).1.getD 0 = 0 := by
  cases px with
  | none => rfl
  | some v =>
    by_cases hv : v = 0
    · simp [snap_to_grid, hv]
    · simp [snap_to_grid, hv, calc_snap]

theorem grid_commit_dvd (gx gy : Int) (e : PEvent) (s : Single.SState)
    (hx : gx ∣ s.x_offset) (hy : gy ∣ s.y_offset) :
    gx ∣ (Single.move_commit [grid gx gy] e s).x_offset
    ∧ gy ∣ (Single.move_commit [grid gx gy] e s).y_offset := by
  cases hd : s.is_dragging
  · simp only [Single.move_commit, hd]
    simp
    exact ⟨hx, hy⟩
  · cases hc : s.current_drag_hook_cancelled
    · simp [Single.move_commit, Single.move_chain, Single.run_plugins, grid,
        Single.SPlugin.hookOf, Single.s_apply, Single.s_ctx, Single.flush_effects,
        Single.clear_effects, Single.fire_event, Single.raw_delta, hd, hc]
      constructor
      · exact dvd_add hx (snap_to_grid_dvd gx gy _ _).1
      · exact dvd_add hy (snap_to_grid_dvd gx gy _ _).2
    · simp [Single.move_commit, Single.move_chain, Single.run_plugins, grid,
        Single.SPlugin.hookOf, Single.s_apply, Single.s_ctx, Single.flush_effects,
        Single.clear_effects, Single.fire_event, Single.raw_delta, hd, hc]
      exact ⟨hx, hy⟩

theorem grid_pointermove_dvd (gx gy : Int) (th : Single.Threshold) (e : PEvent)
    (s : Single.SState) (hx : gx ∣ s.x_offset) (hy : gy ∣ s.y_offset) :
    gx ∣ (Single.pointermove [grid gx gy] th e s).x_offset
    ∧ gy ∣ (Single.pointermove [grid gx gy] th e s).y_offset := by
  simp only [Single.pointermove]
  split
  · exact ⟨hx, hy⟩
  · split
    · refine grid_commit_dvd gx gy e _ ?_ ?_
      · rw [(move_thresholds_offsets [grid gx gy] th e s).1]; exact hx
      · rw [(move_thresholds_offsets [grid gx gy] th e s).2]; exact hy
    · exact grid_commit_dvd gx gy e s hx hy

theorem grid_moves_dvd (gx gy : Int) (th : Single.Threshold) (moves : List PEvent)
    (s : Single.SState) (hx : gx ∣ s.x_offset) (hy : gy ∣ s.y_offset) :
    gx ∣ (moves.foldl (fun st ev => Single.pointermove [grid gx gy] th ev st) s).x_offset
    ∧ gy ∣ (moves.foldl (fun st ev => Single.pointermove [grid gx gy] th ev st) s).y_offset := by
  induction moves generalizing s with
  | nil => exact ⟨hx, hy⟩
  | cons m rest ih =>
    obtain ⟨hx1, hy1⟩ := grid_pointermove_dvd gx gy th m s hx hy
    exact ih _ hx1 hy1

theorem grid_zero_commit_x (gy : Int) (e : PEvent) (s : Single.SState) :
    (Single.move_commit [grid 0 gy] e s).x_offset = s.x_offset := by
  cases hd : s.is_dragging
  · simp [Single.move_commit, hd]
  · cases hc : s.current_drag_hook_cancelled
    · simp [Single.move_commit, Single.move_chain, Single.run_plugins, grid,
        Single.SPlugin.hookOf, Single.s_apply, Single.s_ctx, Single.flush_effects,
        Single.clear_effects, Single.fire_event, Single.raw_delta, hd, hc,
        snap_to_grid_zero_fst]
    · simp [Single.move_commit, Single.move_chain, Single.run_plugins, grid,
        Single.SPlugin.hookOf, Single.s_apply, Single.s_ctx, Single.flush_effects,
        Single.clear_effects, Single.fire_event, Single.raw_delta, hd, hc]

theorem grid_zero_pointermove_x (gy : Int) (th : Single.Threshold) (e : PEvent)
    (s : Single.SState) :
    (Single.pointermove [grid 0 gy] th e s).x_offset = s.x_offset := by
  simp only [Single.pointermove]
  split
  · rfl
  · split
    · exact (grid_zero_commit_x gy e _).trans
        (move_thresholds_offsets [grid 0 gy] th e s).1
    · exact grid_zero_commit_x gy e s

/-- C9: with a grid `(gx, gy)`, the `drag` hook rounds each truthy proposed
delta up to the next multiple of the per-axis step (`calc` is an exact
multiple and lands in `[val, val + step)` for a positive step), so a
committed offset that is a multiple of `(gx, gy)` per axis stays so across
every pointer-move — hence, offsets starting from `(0, 0)`, the committed
offset after any single move and any sequence of moves is an exact multiple
of `(gx, gy)`; a zero horizontal step locks that axis's delta to zero, so the
horizontal committed offset stays at its last committed value; the core
package's `snapToGrid` produces exact multiples on both axes. -/
theorem c9_grid_snapping :
    (∀ (gx gy : Int) (th : Single.Threshold) (e : PEvent) (s : Single.SState),
        0 < gx → 0 < gy → gx ∣ s.x_offset → gy ∣ s.y_offset →
        gx ∣ (Single.pointermove [grid gx gy] th e s).x_offset
        ∧ gy ∣ (Single.pointermove [grid gx gy] th e s).y_offset)
    ∧ (∀ (gx gy : Int) (th : Single.Threshold) (moves : List PEvent) (s : Single.SState),
        gx ∣ s.x_offset → gy ∣ s.y_offset →
        gx ∣ (moves.foldl (fun st ev => Single.pointermove [grid gx gy] th ev st)
              s).x_offset
        ∧ gy ∣ (moves.foldl (fun st ev => Single.pointermove [grid gx gy] th ev st)
              s).y_offset)
    ∧ (∀ (v g : Int), 0 < g →
        g ∣ calc_snap v g ∧ v ≤ calc_snap v g ∧ calc_snap v g < v + g)
    ∧ (∀ (gy : Int) (th : Single.Threshold) (e : PEvent) (s : Single.SState),
        (Single.pointermove [grid 0 gy] th e s).x_offset = s.x_offset)
    ∧ (∀ (gx gy px py : Int),
        gx ∣ (snapToGrid (gx, gy) px py).1 ∧ gy ∣ (snapToGrid (gx, gy) px py).2) := by
  refine ⟨?_, grid_moves_dvd, ?_, grid_zero_pointermove_x, ?_⟩
  · intro gx gy th e s _ _ hx hy
    exact grid_pointermove_dvd gx gy th e s hx hy
  · intro v g hg
    exact ⟨calc_snap_dvd v g, calc_snap_bounds v g hg⟩
  · intro gx gy px py
    exact ⟨calc_snap_dvd px gx, calc_snap_dvd py gy⟩

/-- Witness for C9 at concrete inputs: one move with grid `(3, 5)` from a
dragging state with zero offsets keeps both offsets exact multiples, a
sequence keeps them so, `calc(7, 3) = 9` satisfies the rounding-up bounds,
and a zero horizontal step keeps the horizontal offset at its last value. -/
theorem c9_grid_snapping_witness :
    (3 ∣ (Single.pointermove [grid 3 5] {} ev0 sDrag).x_offset
      ∧ 5 ∣ (Single.pointermove [grid 3 5] {} ev0 sDrag).y_offset)
    ∧ (3 ∣ (([ev0].foldl (fun st ev => Single.pointermove [grid 3 5] {} ev st)
          sDrag)).x_offset
      ∧ 5 ∣ (([ev0].foldl (fun st ev => Single.pointermove [grid 3 5] {} ev st)
          sDrag)).y_offset)
    ∧ (3 ∣ calc_snap 7 3 ∧ 7 ≤ calc_snap 7 3 ∧ calc_snap 7 3 < 7 + 3) :=
  ⟨c9_grid_snapping.1 3 5 {} ev0 sDrag (by decide) (by decide) (dvd_zero 3) (dvd_zero 5),
   c9_grid_snapping.2.1 3 5 {} [ev0] sDrag (dvd_zero 3) (dvd_zero 5),
   c9_grid_snapping.2.2.1 7 3 (by decide)⟩

end Neodrag
